import Mathlib

/-!
Verification development for the capability-aware MCP relay (rmcpp).

The definitions in this file are a shallow embedding of the Python source:

  * `src/sse_client.py` — `CapabilityAwareClientSession` with
    `_is_method_supported`, `_send_request`, `_send_request_with_retry`,
    and the patched stream wrappers `enhanced_read` / `enhanced_receive`;
  * `src/sse_server.py` — the `enhanced_receive` wrapper of `handle_sse`;
  * `src/proxy_server.py` — `get_capability`.

Python strings are modelled as `String` / `List Char`; Python dicts and JSON
values are modelled by the inductive `Json`; `json.loads` is modelled by
`loads`, a fuel-based recursive descent parser that reports the character
offset at which decoding fails (mirroring `json.JSONDecodeError.pos` for the
cases exercised here: failure inside a value reports the offset reached, and
trailing garbage after a complete value reports the offset of the first
non-whitespace extra character).  Exception *message texts* are abstracted
(only their structure and the substrings tested by the source matter);
error *codes* and control flow are modelled exactly.
-/

/-- Opening curly brace character (written via an escape so that JSON test
strings can be spelled without literal braces). -/
def lcurl : Char := '\x7b'

/-- Closing curly brace character. -/
def rcurl : Char := '\x7d'

/-- Whitespace recognised by Python `str.strip()` (the common subset). -/
def isPyWs (c : Char) : Bool :=
  c = ' ' || c = '\t' || c = '\n' || c = '\r' || c = '\x0b' || c = '\x0c'

/-- Whitespace skipped by the JSON grammar (`' '`, `'\t'`, `'\n'`, `'\r'`). -/
def isJsonWs (c : Char) : Bool :=
  c = ' ' || c = '\t' || c = '\n' || c = '\r'

/-- Python `str.strip()` on a character list: drop leading and trailing
whitespace. -/
def pyStrip (l : List Char) : List Char :=
  ((l.dropWhile isPyWs).reverse.dropWhile isPyWs).reverse

/-- Prefix of a character list up to and including the first `'\x7d'`;
equals `l.take (l.findIdx (· = rcurl) + 1)` when a closing brace is present
(the Python idiom `s[:s.find('\x7d') + 1]`). -/
def takeToRcurl : List Char → List Char
  | [] => []
  | c :: rest => if c = rcurl then [c] else c :: takeToRcurl rest

/-- Python substring membership `pat in hay` for character lists. -/
def listContainsSub (pat : List Char) : List Char → Bool
  | [] => pat.isEmpty
  | c :: rest => pat.isPrefixOf (c :: rest) || listContainsSub pat rest

/-- Python `pat in hay` on strings. -/
def strContains (hay pat : String) : Bool :=
  listContainsSub pat.toList hay.toList

/-- Python `s.startswith(pre)`. -/
def pyStartsWith (s pre : String) : Bool :=
  pre.toList.isPrefixOf s.toList

/-- JSON values as produced by `json.loads`.  A number is kept as its integer
part plus the raw text of its fraction/exponent suffix (empty for integer
literals); this is enough to compare the RPC codes the claims are about. -/
inductive Json where
  | null : Json
  | bool (b : Bool) : Json
  | num (i : Int) (suffix : String) : Json
  | str (s : String) : Json
  | arr (xs : List Json) : Json
  | obj (fields : List (String × Json)) : Json

/-- Integer JSON number. -/
def intJ (i : Int) : Json := .num i ""

/-- Python dict lookup on a parsed JSON object (later duplicate keys win,
as in `json.loads`). -/
def dictGet (fields : List (String × Json)) (k : String) : Option Json :=
  fields.reverse.lookup k

/-- Whether a `Json` value is a Python dict. -/
def isDict : Json → Bool
  | .obj _ => true
  | _ => false

/-- Skip JSON whitespace, tracking the absolute character offset. -/
def skipWs : List Char → Nat → List Char × Nat
  | [], p => ([], p)
  | c :: rest, p => if isJsonWs c then skipWs rest (p + 1) else (c :: rest, p)

/-- Decode a single-character JSON string escape. -/
def escChar (c : Char) : Option Char :=
  if c = '"' then some '"'
  else if c = '\\' then some '\\'
  else if c = '/' then some '/'
  else if c = 'b' then some '\x08'
  else if c = 'f' then some '\x0c'
  else if c = 'n' then some '\n'
  else if c = 'r' then some '\r'
  else if c = 't' then some '\t'
  else none

/-- Hexadecimal digit value. -/
def hexVal (c : Char) : Option Nat :=
  if '0' ≤ c ∧ c ≤ '9' then some (c.toNat - '0'.toNat)
  else if 'a' ≤ c ∧ c ≤ 'f' then some (c.toNat - 'a'.toNat + 10)
  else if 'A' ≤ c ∧ c ≤ 'F' then some (c.toNat - 'A'.toNat + 10)
  else none

/-- Parse the body of a JSON string literal (the opening quote has been
consumed); `p` is the absolute offset of the first body character.  Returns
the decoded text, the rest of the input and the offset just past the closing
quote, or the offset at which decoding failed. -/
def parseStrBody (acc : List Char) : List Char → Nat → Except Nat (String × List Char × Nat)
  | [], p => .error p
  | c :: rest, p =>
    if c = '"' then .ok (String.mk acc.reverse, rest, p + 1)
    else if c = '\\' then
      match rest with
      | [] => .error (p + 1)
      | e :: rest2 =>
        if e = 'u' then
          match rest2 with
          | h1 :: h2 :: h3 :: h4 :: rest3 =>
            match hexVal h1, hexVal h2, hexVal h3, hexVal h4 with
            | some v1, some v2, some v3, some v4 =>
              parseStrBody (Char.ofNat (((v1 * 16 + v2) * 16 + v3) * 16 + v4) :: acc) rest3 (p + 6)
            | _, _, _, _ => .error (p + 2)
          | _ => .error (p + 2)
        else
          match escChar e with
          | some d => parseStrBody (d :: acc) rest2 (p + 2)
          | none => .error (p + 1)
    else if c.toNat < 32 then .error p
    else parseStrBody (c :: acc) rest (p + 1)

/-- Consume a run of decimal digits. -/
def takeDigits : List Char → List Char × List Char
  | [] => ([], [])
  | c :: rest =>
    if c.isDigit then
      let (ds, r) := takeDigits rest
      (c :: ds, r)
    else ([], c :: rest)

/-- Numeric value of a digit run. -/
def digitsToNat : List Char → Nat
  | [] => 0
  | ds => ds.foldl (fun a c => a * 10 + (c.toNat - '0'.toNat)) 0

/-- Parse the optional fraction part of a JSON number (a dot followed by at
least one digit), returning its raw text; a malformed fraction simply ends
the number, as in CPython's regular-expression scanner. -/
def parseFracPart (cs : List Char) (p : Nat) : List Char × List Char × Nat :=
  match cs with
  | '.' :: r =>
    let (ds, r2) := takeDigits r
    if ds.isEmpty then (([] : List Char), cs, p)
    else ('.' :: ds, r2, p + 1 + ds.length)
  | _ => (([] : List Char), cs, p)

/-- Parse the optional exponent part of a JSON number (`e`/`E`, optional
sign, at least one digit), returning its raw text; a malformed exponent
simply ends the number. -/
def parseExpPart (cs : List Char) (p : Nat) : List Char × List Char × Nat :=
  match cs with
  | e :: r =>
    if e = 'e' ∨ e = 'E' then
      match r with
      | s :: r2 =>
        if s = '+' ∨ s = '-' then
          let (ds, r3) := takeDigits r2
          if ds.isEmpty then (([] : List Char), cs, p)
          else (e :: s :: ds, r3, p + 2 + ds.length)
        else
          let (ds, r3) := takeDigits r
          if ds.isEmpty then (([] : List Char), cs, p)
          else (e :: ds, r3, p + 1 + ds.length)
      | [] => (([] : List Char), cs, p)
    else (([] : List Char), cs, p)
  | [] => (([] : List Char), cs, p)

/-- Parse the fraction/exponent suffix of a JSON number, returning its raw
text (CPython matches the suffix with a regular expression, so a malformed
suffix simply ends the number instead of failing). -/
def parseNumSuffix (cs : List Char) (p : Nat) : List Char × List Char × Nat :=
  let (frac, cs1, p1) := parseFracPart cs p
  let (expt, cs2, p2) := parseExpPart cs1 p1
  (frac ++ expt, cs2, p2)

/-- Parse a JSON number starting at `cs` (first character is `'-'` or a
digit). -/
def parseNum (cs : List Char) (p : Nat) : Except Nat (Json × List Char × Nat) :=
  let (neg, cs1, p1) :=
    match cs with
    | '-' :: r => (true, r, p + 1)
    | _ => (false, cs, p)
  match cs1 with
  | c :: rest =>
    if c = '0' then
      let (suf, r, p2) := parseNumSuffix rest (p1 + 1)
      .ok (.num 0 (String.mk suf), r, p2)
    else if c.isDigit then
      let (ds, r) := takeDigits (c :: rest)
      let n : Int := Int.ofNat (digitsToNat ds)
      let (suf, r2, p2) := parseNumSuffix r (p1 + ds.length)
      .ok (.num (if neg then -n else n) (String.mk suf), r2, p2)
    else .error p
  | [] => .error p

mutual

/-- Parse one JSON value (fuel-based recursive descent; `p` is the absolute
offset of the first unconsumed character). -/
def parseVal : Nat → List Char → Nat → Except Nat (Json × List Char × Nat)
  | 0, _, p => .error p
  | fuel + 1, cs, p =>
    let (cs1, p1) := skipWs cs p
    match cs1 with
    | [] => .error p1
    | c :: rest =>
      if c = '"' then
        match parseStrBody [] rest (p1 + 1) with
        | .ok (s, r, p2) => .ok (.str s, r, p2)
        | .error e => .error e
      else if c = lcurl then
        let (cs2, p2) := skipWs rest (p1 + 1)
        match cs2 with
        | c2 :: r2 =>
          if c2 = rcurl then .ok (.obj [], r2, p2 + 1)
          else parseMembers fuel cs2 p2 []
        | [] => .error p2
      else if c = '[' then
        let (cs2, p2) := skipWs rest (p1 + 1)
        match cs2 with
        | c2 :: r2 =>
          if c2 = ']' then .ok (.arr [], r2, p2 + 1)
          else parseItems fuel cs2 p2 []
        | [] => .error p2
      else if c = 't' then
        match rest with
        | 'r' :: 'u' :: 'e' :: r => .ok (.bool true, r, p1 + 4)
        | _ => .error p1
      else if c = 'f' then
        match rest with
        | 'a' :: 'l' :: 's' :: 'e' :: r => .ok (.bool false, r, p1 + 5)
        | _ => .error p1
      else if c = 'n' then
        match rest with
        | 'u' :: 'l' :: 'l' :: r => .ok (.null, r, p1 + 4)
        | _ => .error p1
      else if c = '-' ∨ c.isDigit then parseNum cs1 p1
      else .error p1

/-- Parse the members of a JSON object after its opening brace (the input is
positioned at a key; the empty-object case is handled by `parseVal`). -/
def parseMembers : Nat → List Char → Nat → List (String × Json) →
    Except Nat (Json × List Char × Nat)
  | 0, _, p, _ => .error p
  | fuel + 1, cs, p, acc =>
    match cs with
    | [] => .error p
    | c :: rest =>
      if c = '"' then
        match parseStrBody [] rest (p + 1) with
        | .ok (k, cs2, p2) =>
          let (cs3, p3) := skipWs cs2 p2
          match cs3 with
          | ':' :: r3 =>
            match parseVal fuel r3 (p3 + 1) with
            | .ok (v, cs4, p4) =>
              let (cs5, p5) := skipWs cs4 p4
              match cs5 with
              | c5 :: r5 =>
                if c5 = ',' then
                  let (cs6, p6) := skipWs r5 (p5 + 1)
                  parseMembers fuel cs6 p6 (acc ++ [(k, v)])
                else if c5 = rcurl then .ok (.obj (acc ++ [(k, v)]), r5, p5 + 1)
                else .error p5
              | [] => .error p5
            | .error e => .error e
          | _ => .error p3
        | .error e => .error e
      else .error p

/-- Parse the items of a JSON array after its opening bracket (the input is
positioned at a value; the empty-array case is handled by `parseVal`). -/
def parseItems : Nat → List Char → Nat → List Json →
    Except Nat (Json × List Char × Nat)
  | 0, _, p, _ => .error p
  | fuel + 1, cs, p, acc =>
    match parseVal fuel cs p with
    | .ok (v, cs2, p2) =>
      let (cs3, p3) := skipWs cs2 p2
      match cs3 with
      | c3 :: r3 =>
        if c3 = ',' then parseItems fuel r3 (p3 + 1) (acc ++ [v])
        else if c3 = ']' then .ok (.arr (acc ++ [v]), r3, p3 + 1)
        else .error p3
      | [] => .error p3
    | .error e => .error e

end

/-- Result of `json.loads`: a value, or a decode error carrying the failure
offset (`JSONDecodeError.pos`). -/
inductive LoadResult where
  | ok (v : Json) : LoadResult
  | err (pos : Nat) : LoadResult

/-- Model of Python `json.loads`: parse one value, then require only
whitespace to follow ("Extra data" otherwise, positioned at the first
non-whitespace extra character). -/
def loads (s : String) : LoadResult :=
  let cs := s.toList
  match parseVal (cs.length + 1) cs 0 with
  | .error p => .err p
  | .ok (v, rest, p) =>
    let (rest2, p2) := skipWs rest p
    if rest2.isEmpty then .ok v else .err p2

/-- State of the brace scanner in `_send_request` (`obj_depth`, `in_string`,
`escape_next`). -/
structure ScanSt where
  depth : Int
  inStr : Bool
  esc : Bool
deriving DecidableEq

/-- One step of the character loop of `_send_request` (sse_client.py lines
312-331): an escaped character is skipped; a backslash inside a string
escapes the next character; an unescaped quote toggles string mode; outside
strings, braces adjust the depth. -/
def scanStep (st : ScanSt) (c : Char) : ScanSt :=
  if st.esc then { st with esc := false }
  else if c = '\\' ∧ st.inStr then { st with esc := true }
  else
    let inStr := if c = '"' then !st.inStr else st.inStr
    if !inStr then
      if c = lcurl then { depth := st.depth + 1, inStr := inStr, esc := false }
      else if c = rcurl then { depth := st.depth - 1, inStr := inStr, esc := false }
      else { st with inStr := inStr }
    else { st with inStr := inStr }

/-- Fold of `scanStep` over a character list. -/
def scanList (st : ScanSt) : List Char → ScanSt
  | [] => st
  | c :: rest => scanList (scanStep st c) rest

/-- The `actual_end` computation of `_send_request`: the index one past the
closing brace at which the depth counter returns to zero, or `0` if the scan
never closes the first object. -/
def actualEnd (st : ScanSt) (i : Nat) : List Char → Nat
  | [] => 0
  | c :: rest =>
    let st2 := scanStep st c
    if ¬st.esc ∧ c = rcurl ∧ ¬st2.inStr ∧ st2.depth = 0 then i + 1
    else actualEnd st2 (i + 1) rest

/-- The string `_send_request` hands to `json.loads` for a string response
that starts with a brace and contains a closing brace: the balanced prefix
found by the depth counter, or the naive first-brace prefix if the scan never
closes (sse_client.py lines 301-334). -/
def sendRequestExtract (cs : List Char) : List Char :=
  let naive := takeToRcurl cs
  let ae := actualEnd ⟨0, false, false⟩ 0 cs
  if ae > 0 then cs.take ae else naive

/-- Python attribute-bearing values as far as capability objects are
concerned.  Falsy non-attribute values (`None`, a missing capability object,
an empty dict) are modelled by `PyObj.none`; generic objects (pydantic
capability models) are truthy and carry named attributes. -/
inductive PyObj where
  | none : PyObj
  | bool (b : Bool) : PyObj
  | obj (attrs : List (String × PyObj)) : PyObj

/-- Python truthiness of a capability value (objects are truthy). -/
def truthy : PyObj → Bool
  | .none => false
  | .bool b => b
  | .obj _ => true

/-- Python `getattr(o, name, <absent>)`: only objects carry the attributes
walked here. -/
def getattrOpt : PyObj → String → Option PyObj
  | .obj attrs, name => attrs.lookup name
  | _, _ => Option.none

/-- Model of `bool(getattr(caps, name, False))` as used by
`_is_method_supported`. -/
def capTruthy (caps : PyObj) (name : String) : Bool :=
  truthy ((getattrOpt caps name).getD (.bool false))

/-- Model of `get_capability` (proxy_server.py lines 16-35): reject falsy
capability objects, then walk the dotted path with `hasattr`/`getattr`,
returning `bool` of the reached value. -/
def get_capability (capabilities : PyObj) (path : String) : Bool :=
  if !truthy capabilities then false
  else getCapabilityGo capabilities (path.splitOn ".")
where
  getCapabilityGo : PyObj → List String → Bool
    | o, [] => truthy o
    | o, part :: parts =>
      match getattrOpt o part with
      | Option.none => false
      | Option.some o2 => getCapabilityGo o2 parts

/-- Attribute walk along a segment list, `none` when a segment is missing;
this is the spec's description of the capability query, used to compare
`get_capability` against the spec's words. -/
def walkPath : PyObj → List String → Option PyObj
  | o, [] => Option.some o
  | o, part :: parts =>
    match getattrOpt o part with
    | Option.none => Option.none
    | Option.some o2 => walkPath o2 parts

/-- Mutable per-session fields of `CapabilityAwareClientSession` consulted by
the method gate and retry logic. -/
structure Session where
  server_capabilities : PyObj
  unsupported_methods : List String
  max_retries : Nat
  disable_capability_check : Bool

/-- Model of `_is_method_supported` (sse_client.py lines 235-260). -/
def is_method_supported (s : Session) (m : String) : Bool :=
  if s.disable_capability_check then true
  else if s.unsupported_methods.contains m then false
  else if m = "initialize" ∨ m = "notifications/initialized" then true
  else if pyStartsWith m "resources/" then capTruthy s.server_capabilities "resources"
  else if pyStartsWith m "prompts/" then capTruthy s.server_capabilities "prompts"
  else if pyStartsWith m "tools/" then capTruthy s.server_capabilities "tools"
  else true

/-- A Python value as delivered by `read_stream.read()`: a raw string or an
already-structured value. -/
inductive PyVal where
  | pstr (s : String) : PyVal
  | pobj (v : Json) : PyVal

/-- What `_send_request` produces for one attempt: a returned Python value or
a raised exception (identified by its rendered message, which is all the
retry loop inspects). -/
inductive SendVal where
  | errorResponse (code : Json) (message : Json) : SendVal
  | success (result : Option Json) : SendVal

/-- Outcome of one `_send_request` invocation. -/
inductive SendOutcome where
  | ret (v : SendVal) : SendOutcome
  | exn (msg : String) : SendOutcome

/-- Behaviour of the upstream channel for one attempt: the write raises, the
read raises, or the read returns a value. -/
inductive AttemptBehavior where
  | writeRaise (msg : String) : AttemptBehavior
  | readRaise (msg : String) : AttemptBehavior
  | readValue (v : PyVal) : AttemptBehavior

/-- Rendering of a `json.JSONDecodeError` as a message fragment (the exact
text is abstracted; only the structure matters to the claims). -/
def jeRender (p : Nat) : String :=
  "JSON decode error at position " ++ toString p

/-- Response handling of `_send_request` after a dict (or other value) is in
hand (sse_client.py lines 352-365): non-dicts become a `-32700` error
response; a dict with an `error` member yields an `ErrorResponse` built with
`error.get("code", 0)` and `error.get("message", "Unknown error")`; `.get`
on a non-dict `error` raises; otherwise `response.get("result")` is
returned. -/
def handleResponseDict : Json → SendOutcome
  | .obj fields =>
    match dictGet fields "error" with
    | Option.some (.obj errFields) =>
      .ret (.errorResponse ((dictGet errFields "code").getD (intJ 0))
        ((dictGet errFields "message").getD (.str "Unknown error")))
    | Option.some _ => .exn "object has no attribute get"
    | Option.none => .ret (.success (dictGet fields "result"))
  | _ => .ret (.errorResponse (intJ (-32700)) (.str "Invalid response format: not a JSON object"))

/-- String response handling of `_send_request` (sse_client.py lines
298-357): extract the first JSON object via the depth counter (falling back
to the naive first-brace prefix), parse it, and convert any decode failure
into a returned `-32700` error response. -/
def processResponse : PyVal → SendOutcome
  | .pstr s =>
    let cs := s.toList
    if pyStartsWith s (String.mk [lcurl]) && cs.contains rcurl then
      match loads (String.mk (sendRequestExtract cs)) with
      | .ok v => handleResponseDict v
      | .err p => .ret (.errorResponse (intJ (-32700)) (.str ("JSON parsing error: " ++ jeRender p)))
    else
      match loads s with
      | .ok v => handleResponseDict v
      | .err p => .ret (.errorResponse (intJ (-32700)) (.str ("JSON parsing error: " ++ jeRender p)))
  | .pobj v => handleResponseDict v

/-- One `_send_request` invocation against a scripted channel behaviour: a
raised write is propagated; a raised read is caught by the inner handler and
returned as a `-32700` error response (sse_client.py lines 355-357); a read
value goes through response processing. -/
def sendRequestAttempt : AttemptBehavior → SendOutcome
  | .writeRaise msg => .exn msg
  | .readRaise msg => .ret (.errorResponse (intJ (-32700)) (.str ("JSON parsing error: " ++ msg)))
  | .readValue v => processResponse v

/-- Result a caller observes from `_send_request_with_retry`. -/
inductive CallResult where
  | errorResponse (code : Json) (message : Json) : CallResult
  | success (result : Option Json) : CallResult
  | raised (msg : String) : CallResult

/-- Lift a returned `_send_request` value to a caller-visible result. -/
def liftSendVal : SendVal → CallResult
  | .errorResponse c m => .errorResponse c m
  | .success r => .success r

/-- The backoff unit of `_send_request_with_retry` in tenths of a second
(the source sleeps `(attempt + 1) * 0.5` seconds). -/
def baseBackoffDecis : Nat := 5

/-- Observable outcome of `_send_request_with_retry`: the caller-visible
result, the number of channel send attempts, the sleeps performed (in tenths
of a second), and the final deny-list. -/
structure RetryOut where
  result : CallResult
  sends : Nat
  sleeps : List Nat
  deny : List String

/-- Python `set.add` on the deny-list. -/
def denyInsert (m : String) (deny : List String) : List String :=
  if deny.contains m then deny else m :: deny

/-- The attempt loop of `_send_request_with_retry` (sse_client.py lines
376-402).  `remaining` counts the retries still permitted, so that
`attempt < max_retries` in the source corresponds to `remaining > 0`.  A
returned value ends the loop; a raised message with a JSON-parse marker
becomes a `-32700` error response without retry; a raised message with a
method-not-found marker records the method in the deny-list and becomes a
`-32601` error response without retry; any other raise sleeps
`(attempt + 1) * 0.5` seconds and retries, or is re-raised on the last
attempt. -/
def retryGo (script : Nat → AttemptBehavior) (method : String) :
    Nat → Nat → List String → Nat → List Nat → RetryOut
  | attempt, remaining, deny, sends, sleeps =>
    match sendRequestAttempt (script attempt) with
    | .ret v => ⟨liftSendVal v, sends + 1, sleeps, deny⟩
    | .exn msg =>
      if strContains msg "Unexpected non-whitespace character" || strContains msg "SyntaxError" then
        ⟨.errorResponse (intJ (-32700)) (.str ("JSON parsing error: " ++ msg)), sends + 1, sleeps, deny⟩
      else if strContains msg "Method not found" || strContains msg "-32601" then
        ⟨.errorResponse (intJ (-32601)) (.str "Method not found"), sends + 1, sleeps,
          denyInsert method deny⟩
      else
        match remaining with
        | r + 1 => retryGo script method (attempt + 1) r deny (sends + 1)
            (sleeps ++ [(attempt + 1) * baseBackoffDecis])
        | 0 => ⟨.raised msg, sends + 1, sleeps, deny⟩

/-- Model of `_send_request_with_retry` (sse_client.py lines 370-402): the
method gate runs first and rejects with a `-32601` error response before any
channel interaction; otherwise the attempt loop runs with
`max_retries + 1` permitted attempts. -/
def send_request_with_retry (s : Session) (method : String)
    (script : Nat → AttemptBehavior) : RetryOut :=
  if !is_method_supported s method then
    ⟨.errorResponse (intJ (-32601)) (.str "Method not found"), 0, [], s.unsupported_methods⟩
  else
    retryGo script method 0 s.max_retries s.unsupported_methods 0 []

/-- Behaviour of the wrapped inner `read`/`receive` for one invocation of a
stream wrapper: it returns a value or raises (a non-decode exception,
identified by its rendered message). -/
inductive ReadBehavior where
  | rvalue (v : PyVal) : ReadBehavior
  | rraise (msg : String) : ReadBehavior

/-- What a stream wrapper delivers: a value, or a re-raised exception. -/
inductive ReadOut where
  | val (v : Json) : ReadOut
  | thrown (msg : String) : ReadOut

/-- The `-32700` JSON-RPC error object the stream wrappers build (key order
as in the source: `jsonrpc`, `error` with `code` then `message`, `id`). -/
def rpcErrorDict (idv : Json) (message : String) : Json :=
  .obj [("jsonrpc", .str "2.0"),
    ("error", .obj [("code", intJ (-32700)), ("message", .str message)]),
    ("id", idv)]

/-- Whether the first character is an opening brace (`s.startswith('\x7b')`). -/
def headIsLcurl : List Char → Bool
  | c :: _ => c = lcurl
  | [] => false

/-- Whether the last character is a closing brace (`s.endswith('\x7d')`). -/
def endsWithRcurl (l : List Char) : Bool :=
  l.getLast? = some rcurl

/-- Model of the `re.search(r'at position (\d+)', msg)` extraction used when
a generic exception looks like a JSON error: the digits following the first
occurrence of `"at position "`, or `"unknown"`. -/
def extractPosition (msg : String) : String :=
  match msg.splitOn "at position " with
  | _ :: rest :: _ =>
    let ds := rest.toList.takeWhile Char.isDigit
    if ds.isEmpty then "unknown" else String.mk ds
  | _ => "unknown"

/-- The `except json.JSONDecodeError` handler of the client `enhanced_read`
(sse_client.py lines 159-190): if the failing document is non-empty, the
failure offset is positive, and the stripped text before the offset ends in
a closing brace, `json.loads` is retried on that stripped prefix and its
value returned on success; otherwise a `-32700` error object carrying the
session request id is returned. -/
def readDecodeHandler (rid : Nat) (doc : List Char) (pos : Nat) : Json :=
  let fallback := rpcErrorDict (intJ rid)
    ("JSON parsing error at position " ++ toString pos ++ ": " ++ jeRender pos)
  if doc.isEmpty then fallback
  else if pos > 0 ∧ endsWithRcurl (pyStrip (doc.take pos)) then
    match loads (String.mk (pyStrip (doc.take pos))) with
    | .ok v => v
    | .err _ => fallback
  else fallback

/-- Model of the patched client `enhanced_read` (sse_client.py lines
117-212), as a function of the session's current `_request_id` and the inner
read's behaviour.  String results are stripped; when the text starts with a
brace and contains a closing brace, `json.loads` is attempted on the prefix
up to and including the *first* closing brace, with decode failures going to
`readDecodeHandler`; parsed non-dict results become a `-32700` error object;
generic read exceptions whose message looks JSON-related become a `-32700`
error object, otherwise they are re-raised. -/
def enhanced_read (rid : Nat) : ReadBehavior → ReadOut
  | .rraise msg =>
    if strContains msg "Unexpected non-whitespace character" || strContains msg "JSON" then
      .val (rpcErrorDict (intJ rid)
        ("JSON parsing error at position " ++ extractPosition msg ++ ": " ++ msg))
    else .thrown msg
  | .rvalue (.pobj v) =>
    if isDict v then .val v
    else .val (rpcErrorDict (intJ rid) "Invalid response format: expected dict")
  | .rvalue (.pstr s) =>
    let t := pyStrip s.toList
    if headIsLcurl t && t.contains rcurl then
      match loads (String.mk (takeToRcurl t)) with
      | .ok v =>
        if isDict v then .val v
        else .val (rpcErrorDict (intJ rid) "Invalid response format: expected dict")
      | .err p => .val (readDecodeHandler rid (takeToRcurl t) p)
    else
      match loads (String.mk t) with
      | .ok v =>
        if isDict v then .val v
        else .val (rpcErrorDict (intJ rid) "Invalid response format: expected dict")
      | .err p => .val (readDecodeHandler rid t p)

/-- Model of the client `enhanced_receive` (sse_client.py lines 66-100):
same first-brace extraction, but decode failures become a `-32700` error
object immediately (no secondary recovery and no dict check), non-string
results pass through unchanged, and read exceptions are always re-raised. -/
def client_enhanced_receive (rid : Nat) : ReadBehavior → ReadOut
  | .rraise msg => .thrown msg
  | .rvalue (.pobj v) => .val v
  | .rvalue (.pstr s) =>
    let t := pyStrip s.toList
    if headIsLcurl t && t.contains rcurl then
      match loads (String.mk (takeToRcurl t)) with
      | .ok v => .val v
      | .err p => .val (rpcErrorDict (intJ rid) ("JSON parsing error: " ++ jeRender p))
    else
      match loads (String.mk t) with
      | .ok v => .val v
      | .err p => .val (rpcErrorDict (intJ rid) ("JSON parsing error: " ++ jeRender p))

/-- The `except json.JSONDecodeError` handler of the server
`enhanced_receive` (sse_server.py lines 98-130); identical to the client
read handler except that the error object's `id` is `null`. -/
def serverDecodeHandler (doc : List Char) (pos : Nat) : Json :=
  let fallback := rpcErrorDict .null
    ("JSON parsing error at position " ++ toString pos ++ ": " ++ jeRender pos)
  if doc.isEmpty then fallback
  else if pos > 0 ∧ endsWithRcurl (pyStrip (doc.take pos)) then
    match loads (String.mk (pyStrip (doc.take pos))) with
    | .ok v => v
    | .err _ => fallback
  else fallback

/-- Model of the server `enhanced_receive` (sse_server.py lines 57-155):
first-brace extraction with secondary recovery, dict validation with a
`null` id, and JSON-looking generic exceptions converted to a `-32700`
error object. -/
def server_enhanced_receive : ReadBehavior → ReadOut
  | .rraise msg =>
    if strContains msg "Unexpected non-whitespace character" || strContains msg "JSON" then
      .val (rpcErrorDict .null
        ("JSON parsing error at position " ++ extractPosition msg ++ ": " ++ msg))
    else .thrown msg
  | .rvalue (.pobj v) =>
    if isDict v then .val v
    else .val (rpcErrorDict .null "Invalid message format: expected dict")
  | .rvalue (.pstr s) =>
    let t := pyStrip s.toList
    if headIsLcurl t && t.contains rcurl then
      match loads (String.mk (takeToRcurl t)) with
      | .ok v =>
        if isDict v then .val v
        else .val (rpcErrorDict .null "Invalid message format: expected dict")
      | .err p => .val (serverDecodeHandler (takeToRcurl t) p)
    else
      match loads (String.mk t) with
      | .ok v =>
        if isDict v then .val v
        else .val (rpcErrorDict .null "Invalid message format: expected dict")
      | .err p => .val (serverDecodeHandler t p)

/-- Session state visible to the client stream wrappers: `enhanced_read`
reads `self._request_id` (for error-object ids) and mutates nothing. -/
structure ClientState where
  request_id : Nat

/-- The client `enhanced_read` as a state transformer over the session state
it closes over: the source only reads `self._request_id`, so the state is
returned unchanged. -/
def enhancedReadStep (st : ClientState) (b : ReadBehavior) : ReadOut × ClientState :=
  (enhanced_read st.request_id b, st)

/-- The server `enhanced_receive` as a state transformer: it closes over no
mutable session data at all. -/
def serverReceiveStep (st : Unit) (b : ReadBehavior) : ReadOut × Unit :=
  (server_enhanced_receive b, st)

/-- The three capability families gated by namespace in
`_is_method_supported`. -/
inductive CapFamily where
  | resources : CapFamily
  | prompts : CapFamily
  | tools : CapFamily

/-- Method-namespace prefix of a capability family. -/
def familyNamespace : CapFamily → String
  | .resources => "resources/"
  | .prompts => "prompts/"
  | .tools => "tools/"

/-- Capability attribute consulted for a family. -/
def familyAttr : CapFamily → String
  | .resources => "resources"
  | .prompts => "prompts"
  | .tools => "tools"

/-- Expected sleep schedule (in tenths of a second) of `r` consecutive
retries starting at attempt index `a`. -/
def backoffs : Nat → Nat → List Nat
  | _, 0 => []
  | a, r + 1 => (a + 1) * baseBackoffDecis :: backoffs (a + 1) r

/-- The inbound frame of concrete scenario B: two concatenated well-formed
messages. -/
def scenarioBFrame : String :=
  "\x7b\"id\":1,\"result\":\x7b\"data\":true\x7d\x7d\x7b\"id\":2,\"method\":\"x\"\x7d"

/-- The first logical message of scenario B. -/
def scenarioBFirst : String := "\x7b\"id\":1,\"result\":\x7b\"data\":true\x7d\x7d"

/-- A session whose handshake reported only `tools: true` (scenario A). -/
def toolsOnlySession : Session := ⟨.obj [("tools", .bool true)], [], 1, false⟩

/-- A session whose handshake reported only `prompts: true` (scenario C). -/
def promptsSession : Session := ⟨.obj [("prompts", .bool true)], [], 1, false⟩

/-- A session with `max_retries = 2` and only `tools` capability. -/
def boomSession : Session := ⟨.obj [("tools", .bool true)], [], 2, false⟩

/-- A session that has already deny-listed `prompts/get`. -/
def denySession : Session := ⟨.obj [("prompts", .bool true)], ["prompts/get"], 1, false⟩

/-- A channel script whose write always raises a marker-free transport
error. -/
def neverScript : Nat → AttemptBehavior := fun _ => .writeRaise "unreachable"

/-- A well-formed JSON-RPC method-not-found error response frame. -/
def mnfErrorFrame : Json :=
  .obj [("jsonrpc", .str "2.0"), ("id", intJ 1),
    ("error", .obj [("code", intJ (-32601)), ("message", .str "Method not found")])]

/-- A channel script that always answers with a well-formed `-32601` error
response frame. -/
def mnfScript : Nat → AttemptBehavior := fun _ => .readValue (.pobj mnfErrorFrame)

/-- A channel script whose write always raises a bare transport error. -/
def boomScript : Nat → AttemptBehavior := fun _ => .writeRaise "boom"

/-- A channel script whose read always returns an unparseable string. -/
def notJsonScript : Nat → AttemptBehavior := fun _ => .readValue (.pstr "not json")

lemma getCapabilityGo_eq_walkPath (o : PyObj) (l : List String) :
    get_capability.getCapabilityGo o l = (walkPath o l).elim false truthy := by
  induction l generalizing o with
  | nil => rfl
  | cons p ps ih =>
    simp only [get_capability.getCapabilityGo, walkPath]
    cases getattrOpt o p with
    | none => rfl
    | some o2 => exact ih o2

lemma walkPath_elim_of_falsy (o : PyObj) (h : truthy o = false) (l : List String) :
    (walkPath o l).elim false truthy = false := by
  cases l with
  | nil => simp [walkPath, h]
  | cons p ps =>
    cases o with
    | none => simp [walkPath, getattrOpt]
    | bool b => simp [walkPath, getattrOpt]
    | obj attrs => simp [truthy] at h

/-- C7: for every capabilities value (including falsy ones) and every dotted
path, `get_capability` equals the segment-by-segment attribute walk that
yields `false` as soon as a segment is missing and the truthiness of the
reached leaf otherwise; being a total function, it never raises. -/
theorem capability_query_walks_segments (caps : PyObj) (path : String) :
    get_capability caps path = (walkPath caps (path.splitOn ".")).elim false truthy := by
  by_cases h : truthy caps = true
  · simp [get_capability, h, getCapabilityGo_eq_walkPath]
  · have h2 : truthy caps = false := by
      cases hb : truthy caps
      · rfl
      · exact absurd hb h
    simp [get_capability, h2, walkPath_elim_of_falsy caps h2]

/-- C5: the method-gate decision of `_is_method_supported` is computed in
order: bypass allows everything; otherwise a deny-listed method is refused;
otherwise handshake methods are allowed; otherwise the `resources/`,
`prompts/`, `tools/` namespaces are allowed exactly when the corresponding
capability attribute is truthy (checked in that order); all other methods
are allowed by default. -/
theorem method_gate_decision_order (s : Session) (m : String) :
    (s.disable_capability_check = true → is_method_supported s m = true) ∧
    (s.disable_capability_check = false → m ∈ s.unsupported_methods →
      is_method_supported s m = false) ∧
    (s.disable_capability_check = false → m ∉ s.unsupported_methods →
      (m = "initialize" ∨ m = "notifications/initialized") →
      is_method_supported s m = true) ∧
    (s.disable_capability_check = false → m ∉ s.unsupported_methods →
      m ≠ "initialize" → m ≠ "notifications/initialized" →
      pyStartsWith m "resources/" = true →
      is_method_supported s m = capTruthy s.server_capabilities "resources") ∧
    (s.disable_capability_check = false → m ∉ s.unsupported_methods →
      m ≠ "initialize" → m ≠ "notifications/initialized" →
      pyStartsWith m "resources/" = false → pyStartsWith m "prompts/" = true →
      is_method_supported s m = capTruthy s.server_capabilities "prompts") ∧
    (s.disable_capability_check = false → m ∉ s.unsupported_methods →
      m ≠ "initialize" → m ≠ "notifications/initialized" →
      pyStartsWith m "resources/" = false → pyStartsWith m "prompts/" = false →
      pyStartsWith m "tools/" = true →
      is_method_supported s m = capTruthy s.server_capabilities "tools") ∧
    (s.disable_capability_check = false → m ∉ s.unsupported_methods →
      m ≠ "initialize" → m ≠ "notifications/initialized" →
      pyStartsWith m "resources/" = false → pyStartsWith m "prompts/" = false →
      pyStartsWith m "tools/" = false →
      is_method_supported s m = true) := by
  refine ⟨?_, ?_, ?_, ?_, ?_, ?_, ?_⟩ <;>
    intros <;> simp [is_method_supported, *]

/-- Witness for C5 at concrete inputs: a deny-listed method is refused, a
`resources/` call reduces to the `resources` capability, and an
out-of-namespace method is allowed. -/
theorem method_gate_decision_order_witness :
    is_method_supported denySession "prompts/get" = false ∧
    is_method_supported toolsOnlySession "resources/list" =
      capTruthy toolsOnlySession.server_capabilities "resources" ∧
    is_method_supported toolsOnlySession "completion/complete" = true :=
  ⟨(method_gate_decision_order denySession "prompts/get").2.1 rfl (by decide),
   (method_gate_decision_order toolsOnlySession "resources/list").2.2.2.1 rfl (by decide)
     (by decide) (by decide) rfl,
   (method_gate_decision_order toolsOnlySession "completion/complete").2.2.2.2.2.2
     rfl (by decide) (by decide) (by decide) rfl rfl rfl⟩

/-- C9: the stream-recovery wrappers are deterministic and idempotent — the
client `enhanced_read` only reads the session's request id and leaves the
session state unchanged, and the server `enhanced_receive` closes over no
mutable state, so invoking either twice on the same frame with no
intervening operation yields the same value or failure object both times. -/
theorem frame_recovery_idempotent (st : ClientState) (b : ReadBehavior) :
    (enhancedReadStep st b).2 = st ∧
    (enhancedReadStep (enhancedReadStep st b).2 b).1 = (enhancedReadStep st b).1 ∧
    (serverReceiveStep () b).2 = () ∧
    (serverReceiveStep (serverReceiveStep () b).2 b).1 = (serverReceiveStep () b).1 :=
  ⟨rfl, rfl, rfl, rfl⟩

/-- C4: on the concatenated two-message frame of scenario B, the depth
counter of `_send_request` locates the end of the first balanced message
(index 31), hands exactly the first message to `json.loads`, and the caller
receives that message's `result` (`data = true`); the remainder of the frame
appears nowhere in the outcome. -/
theorem frame_recovery_scenario_b :
    actualEnd ⟨0, false, false⟩ 0 scenarioBFrame.toList = 31 ∧
    sendRequestExtract scenarioBFrame.toList = scenarioBFirst.toList ∧
    processResponse (.pstr scenarioBFrame) =
      .ret (.success (some (Json.obj [("data", Json.bool true)]))) :=
  ⟨rfl, rfl, rfl⟩

lemma isPrefixOf_cons_shape (c : Char) (cs l : List Char)
    (h : (c :: cs).isPrefixOf l = true) : ∃ tl, l = c :: tl := by
  cases l with
  | nil => simp [List.isPrefixOf] at h
  | cons d tl =>
    simp only [List.isPrefixOf, Bool.and_eq_true, beq_iff_eq] at h
    exact ⟨tl, by rw [h.1]⟩

lemma pyStartsWith_head (m pre : String) (c : Char) (cs : List Char)
    (hpre : pre.toList = c :: cs) (h : pyStartsWith m pre = true) :
    ∃ tl, m.toList = c :: tl := by
  unfold pyStartsWith at h
  rw [hpre] at h
  exact isPrefixOf_cons_shape c cs _ h

lemma head_startsWith_false (m pre : String) (c d : Char) (tl cs : List Char)
    (hm : m.toList = c :: tl) (hpre : pre.toList = d :: cs) (hne : c ≠ d) :
    pyStartsWith m pre = false := by
  cases hsw : pyStartsWith m pre
  · rfl
  · obtain ⟨tl2, h2⟩ := pyStartsWith_head m pre d cs hpre hsw
    rw [hm] at h2
    injection h2 with h3 _
    exact absurd h3 hne

lemma head_ne_string (m other : String) (c d : Char) (tl cs : List Char)
    (hm : m.toList = c :: tl) (ho : other.toList = d :: cs) (hne : c ≠ d) :
    m ≠ other := by
  intro he
  subst he
  rw [ho] at hm
  injection hm with h3
  exact hne h3.symm

/-- C1: whenever the capability attribute of family `F` is absent or falsy,
bypass is off, and the method is not deny-listed, a call to any method in
`F`'s namespace returns the `-32601` method-not-found error response with
zero channel sends, no sleeps, and an unchanged deny-list, whatever the
upstream channel would have done. -/
theorem gate_blocks_absent_family (s : Session) (F : CapFamily) (m : String)
    (script : Nat → AttemptBehavior)
    (hbp : s.disable_capability_check = false)
    (hdn : m ∉ s.unsupported_methods)
    (hpre : pyStartsWith m (familyNamespace F) = true)
    (hcap : capTruthy s.server_capabilities (familyAttr F) = false) :
    send_request_with_retry s m script =
      ⟨.errorResponse (intJ (-32601)) (.str "Method not found"), 0, [], s.unsupported_methods⟩ := by
  have hgate : is_method_supported s m = false := by
    cases F with
    | resources =>
      simp only [familyNamespace] at hpre
      simp only [familyAttr] at hcap
      obtain ⟨tl, hm⟩ := pyStartsWith_head m _ 'r' "esources/".toList (by decide) hpre
      have h1 : m ≠ "initialize" :=
        head_ne_string m _ 'r' 'i' _ "nitialize".toList hm (by decide) (by decide)
      have h2 : m ≠ "notifications/initialized" :=
        head_ne_string m _ 'r' 'n' _ "otifications/initialized".toList hm (by decide) (by decide)
      simp [is_method_supported, hbp, hdn, h1, h2, hpre, hcap]
    | prompts =>
      simp only [familyNamespace] at hpre
      simp only [familyAttr] at hcap
      obtain ⟨tl, hm⟩ := pyStartsWith_head m _ 'p' "rompts/".toList (by decide) hpre
      have h1 : m ≠ "initialize" :=
        head_ne_string m _ 'p' 'i' _ "nitialize".toList hm (by decide) (by decide)
      have h2 : m ≠ "notifications/initialized" :=
        head_ne_string m _ 'p' 'n' _ "otifications/initialized".toList hm (by decide) (by decide)
      have h3 : pyStartsWith m "resources/" = false :=
        head_startsWith_false m _ 'p' 'r' _ "esources/".toList hm (by decide) (by decide)
      simp [is_method_supported, hbp, hdn, h1, h2, h3, hpre, hcap]
    | tools =>
      simp only [familyNamespace] at hpre
      simp only [familyAttr] at hcap
      obtain ⟨tl, hm⟩ := pyStartsWith_head m _ 't' "ools/".toList (by decide) hpre
      have h1 : m ≠ "initialize" :=
        head_ne_string m _ 't' 'i' _ "nitialize".toList hm (by decide) (by decide)
      have h2 : m ≠ "notifications/initialized" :=
        head_ne_string m _ 't' 'n' _ "otifications/initialized".toList hm (by decide) (by decide)
      have h3 : pyStartsWith m "resources/" = false :=
        head_startsWith_false m _ 't' 'r' _ "esources/".toList hm (by decide) (by decide)
      have h4 : pyStartsWith m "prompts/" = false :=
        head_startsWith_false m _ 't' 'p' _ "rompts/".toList hm (by decide) (by decide)
      simp [is_method_supported, hbp, hdn, h1, h2, h3, h4, hpre, hcap]
  simp [send_request_with_retry, hgate]

/-- Witness for C1 (concrete scenario A): the handshake reported only
`tools: true`, yet `resources/list` is called; the caller gets the `-32601`
error response and the channel sees zero sends. -/
theorem gate_blocks_absent_family_witness :
    send_request_with_retry toolsOnlySession "resources/list" neverScript =
      ⟨.errorResponse (intJ (-32601)) (.str "Method not found"), 0, [], []⟩ :=
  gate_blocks_absent_family toolsOnlySession .resources "resources/list" neverScript
    rfl (by decide) (by decide) (by decide)

/-- C6: a parse failure is never retried.  If the first attempt's frame
handling yields a returned `-32700` error response (recovery could not
produce a usable frame), or the first attempt raises an exception bearing a
JSON-parse marker, the call ends after exactly one send with that structured
error, with no sleeps and no deny-list change, whatever `max_retries` is. -/
theorem parse_error_not_retried (s : Session) (m : String) (script : Nat → AttemptBehavior)
    (hgate : is_method_supported s m = true) :
    (∀ msgv, sendRequestAttempt (script 0) = .ret (.errorResponse (intJ (-32700)) msgv) →
      send_request_with_retry s m script =
        ⟨.errorResponse (intJ (-32700)) msgv, 1, [], s.unsupported_methods⟩) ∧
    (∀ emsg, script 0 = .writeRaise emsg →
      (strContains emsg "Unexpected non-whitespace character" = true ∨
        strContains emsg "SyntaxError" = true) →
      send_request_with_retry s m script =
        ⟨.errorResponse (intJ (-32700)) (.str ("JSON parsing error: " ++ emsg)), 1, [],
          s.unsupported_methods⟩) := by
  constructor
  · intro msgv h
    rw [send_request_with_retry, retryGo, h]
    simp [hgate, liftSendVal]
  · intro emsg h hmark
    rw [send_request_with_retry, retryGo, h]
    rcases hmark with hm | hm <;> simp [hgate, sendRequestAttempt, hm]

/-- Witness for C6: an unparseable string response produces the `-32700`
error after one send even though two retries were configured. -/
theorem parse_error_not_retried_witness :
    send_request_with_retry boomSession "tools/list" notJsonScript =
      ⟨.errorResponse (intJ (-32700))
        (.str "JSON parsing error: JSON decode error at position 0"), 1, [], []⟩ :=
  (parse_error_not_retried boomSession "tools/list" notJsonScript rfl).1
    (.str "JSON parsing error: JSON decode error at position 0") rfl

/-- Counterexample to C2 as stated: the upstream answers `prompts/get` once
with a well-formed `-32601` "method not found" error response.  The call
does return the method-unsupported error, but the method is *not* recorded
in the deny-list (the source only records methods when an *exception*
message carries a marker, and a returned error frame is passed through), so
a second call to the same method still performs a channel send. -/
theorem deny_list_not_updated_on_error_response :
    (send_request_with_retry promptsSession "prompts/get" mnfScript).result =
      .errorResponse (intJ (-32601)) (.str "Method not found") ∧
    (send_request_with_retry promptsSession "prompts/get" mnfScript).deny = [] ∧
    (send_request_with_retry
      { promptsSession with
          unsupported_methods :=
            (send_request_with_retry promptsSession "prompts/get" mnfScript).deny }
      "prompts/get" mnfScript).sends = 1 :=
  ⟨rfl, rfl, rfl⟩

lemma mem_denyInsert_self (m : String) (d : List String) : m ∈ denyInsert m d := by
  unfold denyInsert
  by_cases h : d.contains m = true
  · rw [if_pos h]
    simpa using h
  · rw [if_neg h]
    exact List.mem_cons_self m d

lemma mem_denyInsert_of_mem (x m : String) (d : List String) (h : x ∈ d) :
    x ∈ denyInsert m d := by
  unfold denyInsert
  by_cases hc : d.contains m = true
  · rw [if_pos hc]
    exact h
  · rw [if_neg hc]
    exact List.mem_cons_of_mem m h

/-- C2 amended: the deny-list is updated exactly when a call attempt
*raises* an error whose message carries a method-not-found marker
(`"Method not found"` or `"-32601"`) and no parse marker; in that case the
call returns the `-32601` error response immediately after one send, the
method is recorded, and every later call to it is rejected with zero channel
sends.  An upstream that merely returns a `-32601` error frame has that
error passed through without recording (see the counterexample). -/
theorem definitive_mnf_exception_denylists (s : Session) (m : String)
    (script script2 : Nat → AttemptBehavior) (emsg : String)
    (hgate : is_method_supported s m = true)
    (hbp : s.disable_capability_check = false)
    (h0 : script 0 = .writeRaise emsg)
    (hnp1 : strContains emsg "Unexpected non-whitespace character" = false)
    (hnp2 : strContains emsg "SyntaxError" = false)
    (hmnf : strContains emsg "Method not found" = true ∨ strContains emsg "-32601" = true) :
    send_request_with_retry s m script =
      ⟨.errorResponse (intJ (-32601)) (.str "Method not found"), 1, [],
        denyInsert m s.unsupported_methods⟩ ∧
    send_request_with_retry
      { s with unsupported_methods := denyInsert m s.unsupported_methods } m script2 =
      ⟨.errorResponse (intJ (-32601)) (.str "Method not found"), 0, [],
        denyInsert m s.unsupported_methods⟩ := by
  constructor
  · rw [send_request_with_retry, retryGo, h0]
    rcases hmnf with hm | hm <;>
      simp [hgate, sendRequestAttempt, hnp1, hnp2, hm]
  · have hgate2 : is_method_supported
        { s with unsupported_methods := denyInsert m s.unsupported_methods } m = false := by
      simp [is_method_supported, hbp, mem_denyInsert_self]
    simp [send_request_with_retry, hgate2]

/-- Witness for C2 (amended): a raised "Method not found" error on
`prompts/get` records the method, and the follow-up call is gated off with
zero sends. -/
theorem definitive_mnf_exception_denylists_witness :
    send_request_with_retry promptsSession "prompts/get"
        (fun _ => .writeRaise "Method not found") =
      ⟨.errorResponse (intJ (-32601)) (.str "Method not found"), 1, [], ["prompts/get"]⟩ ∧
    send_request_with_retry
        { promptsSession with unsupported_methods := ["prompts/get"] } "prompts/get"
        (fun _ => .writeRaise "Method not found") =
      ⟨.errorResponse (intJ (-32601)) (.str "Method not found"), 0, [], ["prompts/get"]⟩ :=
  definitive_mnf_exception_denylists promptsSession "prompts/get"
    (fun _ => .writeRaise "Method not found") (fun _ => .writeRaise "Method not found")
    "Method not found" rfl rfl rfl rfl rfl (Or.inl rfl)

/-- Counterexample to C3 as stated: with `max_retries = 2` and every attempt
raising the bare transport error `"boom"`, exactly three send attempts and
the two linearly growing sleeps do occur, but the failure the caller
observes is the original exception re-raised *unchanged* — it carries no
attempt-count annotation (the count appears only in a log line). -/
theorem transport_failure_not_annotated :
    send_request_with_retry boomSession "tools/call" boomScript =
      ⟨.raised "boom", 3, [5, 10], []⟩ ∧
    strContains "boom" "3" = false ∧
    strContains "boom" "attempt" = false :=
  ⟨rfl, rfl, rfl⟩

lemma retryGo_all_transport_fail (script : Nat → AttemptBehavior) (method : String)
    (msgs : Nat → String)
    (hscript : ∀ i, script i = .writeRaise (msgs i))
    (hmf : ∀ i, strContains (msgs i) "Unexpected non-whitespace character" = false ∧
      strContains (msgs i) "SyntaxError" = false ∧
      strContains (msgs i) "Method not found" = false ∧
      strContains (msgs i) "-32601" = false) :
    ∀ (r attempt : Nat) (deny : List String) (sends : Nat) (sleeps : List Nat),
      retryGo script method attempt r deny sends sleeps =
        ⟨.raised (msgs (attempt + r)), sends + r + 1, sleeps ++ backoffs attempt r, deny⟩ := by
  intro r
  induction r with
  | zero =>
    intro attempt deny sends sleeps
    rw [retryGo, hscript attempt]
    simp [sendRequestAttempt, (hmf attempt).1, (hmf attempt).2.1,
      (hmf attempt).2.2.1, (hmf attempt).2.2.2, backoffs]
  | succ r ih =>
    intro attempt deny sends sleeps
    rw [retryGo, hscript attempt]
    simp only [sendRequestAttempt, (hmf attempt).1, (hmf attempt).2.1,
      (hmf attempt).2.2.1, (hmf attempt).2.2.2, Bool.or_self, Bool.false_or,
      if_false, Bool.or_false]
    rw [ih (attempt + 1) deny (sends + 1) (sleeps ++ [(attempt + 1) * baseBackoffDecis])]
    have e1 : attempt + 1 + r = attempt + (r + 1) := by omega
    have e2 : sends + 1 + r + 1 = sends + (r + 1) + 1 := by omega
    rw [e1, e2]
    simp [backoffs, List.append_assoc]

lemma backoffs_eq_range : ∀ (r a : Nat),
    backoffs a r = (List.range r).map (fun j => (a + j + 1) * baseBackoffDecis) := by
  intro r
  induction r with
  | zero => intro a; simp [backoffs]
  | succ r ih =>
    intro a
    rw [List.range_succ_eq_map, List.map_cons, List.map_map, backoffs, ih (a + 1)]
    simp only [Nat.add_zero]
    congr 1
    apply List.map_congr_left
    intro j hj
    have e : a + 1 + j + 1 = a + (j + 1) + 1 := by omega
    simp [Function.comp, e]

/-- C3 amended: with `max_retries = N` and every attempt raising a
marker-free transport error, exactly `N + 1` send attempts occur, with
sleeps `(attempt + 1) * baseBackoffUnit` (0.5 s, recorded in tenths of a
second) between consecutive attempts, and the caller then observes the final
underlying transport error re-raised unchanged; the attempt count is logged
but not attached to the observed error. -/
theorem transport_errors_retried_to_exhaustion (s : Session) (m : String)
    (script : Nat → AttemptBehavior) (msgs : Nat → String)
    (hgate : is_method_supported s m = true)
    (hscript : ∀ i, script i = .writeRaise (msgs i))
    (hmf : ∀ i, strContains (msgs i) "Unexpected non-whitespace character" = false ∧
      strContains (msgs i) "SyntaxError" = false ∧
      strContains (msgs i) "Method not found" = false ∧
      strContains (msgs i) "-32601" = false) :
    send_request_with_retry s m script =
      ⟨.raised (msgs s.max_retries), s.max_retries + 1, backoffs 0 s.max_retries,
        s.unsupported_methods⟩ ∧
    backoffs 0 s.max_retries =
      (List.range s.max_retries).map (fun a => (a + 1) * baseBackoffDecis) := by
  constructor
  · rw [send_request_with_retry]
    simp only [hgate, Bool.not_true, Bool.false_eq_true, if_false]
    have h := retryGo_all_transport_fail script m msgs hscript hmf
      s.max_retries 0 s.unsupported_methods 0 []
    simpa using h
  · have h := backoffs_eq_range s.max_retries 0
    simpa using h

/-- Witness for C3 (amended) at `max_retries = 2` and constant error
`"boom"`: three sends, sleeps of 0.5 s and 1.0 s, and `"boom"` re-raised. -/
theorem transport_errors_retried_to_exhaustion_witness :
    send_request_with_retry boomSession "tools/call" boomScript =
      ⟨.raised "boom", 3, [5, 10], []⟩ :=
  (transport_errors_retried_to_exhaustion boomSession "tools/call" boomScript
    (fun _ => "boom") rfl (fun _ => rfl) (fun _ => ⟨rfl, rfl, rfl, rfl⟩)).1

lemma retryGo_deny_cases (script : Nat → AttemptBehavior) (method : String) :
    ∀ (r attempt : Nat) (deny : List String) (sends : Nat) (sleeps : List Nat),
      (retryGo script method attempt r deny sends sleeps).deny = deny ∨
      (retryGo script method attempt r deny sends sleeps).deny = denyInsert method deny := by
  intro r
  induction r with
  | zero =>
    intro attempt deny sends sleeps
    rw [retryGo]
    cases hsa : sendRequestAttempt (script attempt) with
    | ret v => exact Or.inl rfl
    | exn msg =>
      simp only []
      split_ifs with h1 h2
      · exact Or.inl rfl
      · exact Or.inr rfl
      · exact Or.inl rfl
  | succ r ih =>
    intro attempt deny sends sleeps
    rw [retryGo]
    cases hsa : sendRequestAttempt (script attempt) with
    | ret v => exact Or.inl rfl
    | exn msg =>
      simp only []
      split_ifs with h1 h2
      · exact Or.inl rfl
      · exact Or.inr rfl
      · exact ih (attempt + 1) deny (sends + 1)
          (sleeps ++ [(attempt + 1) * baseBackoffDecis])

/-- C8: within one call the deny-list grows monotonically — every member of
the deny-list before the call is still a member afterwards, the final
deny-list is either unchanged or the old one with the called method added,
and the deny-list is consulted before the call: with bypass off, a
deny-listed method is rejected with zero channel sends. -/
theorem deny_list_monotone (s : Session) (m : String) (script : Nat → AttemptBehavior) :
    (∀ x, x ∈ s.unsupported_methods → x ∈ (send_request_with_retry s m script).deny) ∧
    ((send_request_with_retry s m script).deny = s.unsupported_methods ∨
      (send_request_with_retry s m script).deny = denyInsert m s.unsupported_methods) ∧
    (s.disable_capability_check = false → m ∈ s.unsupported_methods →
      send_request_with_retry s m script =
        ⟨.errorResponse (intJ (-32601)) (.str "Method not found"), 0, [],
          s.unsupported_methods⟩) := by
  have hd : (send_request_with_retry s m script).deny = s.unsupported_methods ∨
      (send_request_with_retry s m script).deny = denyInsert m s.unsupported_methods := by
    rw [send_request_with_retry]
    by_cases hg : is_method_supported s m = true
    · simp only [hg, Bool.not_true, Bool.false_eq_true, if_false]
      exact retryGo_deny_cases script m s.max_retries 0 s.unsupported_methods 0 []
    · have hg2 : is_method_supported s m = false := by
        cases h2 : is_method_supported s m
        · rfl
        · exact absurd h2 hg
      simp [hg2]
  refine ⟨?_, hd, ?_⟩
  · intro x hx
    rcases hd with h | h
    · rw [h]; exact hx
    · rw [h]; exact mem_denyInsert_of_mem x m _ hx
  · intro hbp hmem
    simp [send_request_with_retry, is_method_supported, hbp, hmem]

/-- Witness for C8: the deny-listed `prompts/get` is rejected before any
channel interaction even though its capability is advertised. -/
theorem deny_list_monotone_witness :
    send_request_with_retry denySession "prompts/get" mnfScript =
      ⟨.errorResponse (intJ (-32601)) (.str "Method not found"), 0, [],
        ["prompts/get"]⟩ :=
  (deny_list_monotone denySession "prompts/get" mnfScript).2.2 rfl (by decide)

lemma scanList_append (st : ScanSt) (a b : List Char) :
    scanList st (a ++ b) = scanList (scanList st a) b := by
  induction a generalizing st with
  | nil => rfl
  | cons c r ih => simp [scanList, ih]

lemma scanStep_base (d : Int) (c : Char) (h1 : c ≠ lcurl) (h2 : c ≠ rcurl)
    (h3 : c ≠ '"') : scanStep ⟨d, false, false⟩ c = ⟨d, false, false⟩ := by
  simp [scanStep, h1, h2, h3]

lemma scanStep_inStr (d : Int) (c : Char) (h1 : c ≠ '"') (h2 : c ≠ '\\') :
    scanStep ⟨d, true, false⟩ c = ⟨d, true, false⟩ := by
  simp [scanStep, h1, h2]

lemma scanStep_esc (d : Int) (c : Char) :
    scanStep ⟨d, true, true⟩ c = ⟨d, true, false⟩ := by
  simp [scanStep]

lemma scanStep_lcurl (d : Int) : scanStep ⟨d, false, false⟩ lcurl = ⟨d + 1, false, false⟩ := by
  simp [scanStep, (by decide : ¬(lcurl = '"')), (by decide : ¬(lcurl = '\\'))]

lemma scanStep_rcurl (d : Int) : scanStep ⟨d, false, false⟩ rcurl = ⟨d - 1, false, false⟩ := by
  simp [scanStep, (by decide : ¬(rcurl = '"')), (by decide : ¬(rcurl = '\\')),
    (by decide : ¬(rcurl = lcurl))]

lemma scanStep_quote_open (d : Int) : scanStep ⟨d, false, false⟩ '"' = ⟨d, true, false⟩ := by
  simp [scanStep, (by decide : ¬(('"' : Char) = '\\'))]

lemma scanStep_quote_close (d : Int) : scanStep ⟨d, true, false⟩ '"' = ⟨d, false, false⟩ := by
  simp [scanStep, (by decide : ¬(('"' : Char) = '\\')),
    (by decide : ¬(('"' : Char) = lcurl)), (by decide : ¬(('"' : Char) = rcurl))]

lemma scanStep_backslash_inStr (d : Int) :
    scanStep ⟨d, true, false⟩ '\\' = ⟨d, true, true⟩ := by
  simp [scanStep]

lemma scanList_base_of_all (d : Int) (l : List Char)
    (h : ∀ c ∈ l, c ≠ lcurl ∧ c ≠ rcurl ∧ c ≠ '"') :
    scanList ⟨d, false, false⟩ l = ⟨d, false, false⟩ := by
  induction l with
  | nil => rfl
  | cons c rest ih =>
    have hc := h c (List.mem_cons_self c rest)
    rw [scanList, scanStep_base d c hc.1 hc.2.1 hc.2.2]
    exact ih (fun x hx => h x (List.mem_cons_of_mem c hx))

lemma jsonWs_neutral (c : Char) (h : isJsonWs c = true) :
    c ≠ lcurl ∧ c ≠ rcurl ∧ c ≠ '"' := by
  simp only [isJsonWs, Bool.or_eq_true, decide_eq_true_eq] at h
  rcases h with ((h | h) | h) | h <;> subst h <;> refine ⟨by decide, by decide, by decide⟩

lemma digit_neutral (c : Char) (h : c.isDigit = true) :
    c ≠ lcurl ∧ c ≠ rcurl ∧ c ≠ '"' := by
  refine ⟨fun he => ?_, fun he => ?_, fun he => ?_⟩ <;> rw [he] at h <;>
    exact absurd h (by decide)

lemma scanList_ws (d : Int) (w : List Char) (h : ∀ c ∈ w, isJsonWs c = true) :
    scanList ⟨d, false, false⟩ w = ⟨d, false, false⟩ :=
  scanList_base_of_all d w (fun c hc => jsonWs_neutral c (h c hc))

lemma skipWs_split (cs : List Char) (p : Nat) :
    ∃ w, cs = w ++ (skipWs cs p).1 ∧ ∀ c ∈ w, isJsonWs c = true := by
  induction cs generalizing p with
  | nil => exact ⟨[], rfl, by simp⟩
  | cons c rest ih =>
    by_cases h : isJsonWs c = true
    · have hs : skipWs (c :: rest) p = skipWs rest (p + 1) := by simp [skipWs, h]
      obtain ⟨w, hw, hall⟩ := ih (p + 1)
      refine ⟨c :: w, ?_, ?_⟩
      · rw [hs, List.cons_append, ← hw]
      · intro x hx
        rcases List.mem_cons.mp hx with he | hm
        · rw [he]; exact h
        · exact hall x hm
    · have hs : skipWs (c :: rest) p = (c :: rest, p) := by simp [skipWs, h]
      exact ⟨[], by simp [hs], by simp⟩

lemma hexVal_ne (c : Char) (v : Nat) (h : hexVal c = some v) : c ≠ '"' ∧ c ≠ '\\' := by
  refine ⟨fun he => ?_, fun he => ?_⟩
  · rw [he, (by decide : hexVal '"' = Option.none)] at h
    exact Option.noConfusion h
  · rw [he, (by decide : hexVal '\\' = Option.none)] at h
    exact Option.noConfusion h

lemma takeDigits_split (cs : List Char) :
    cs = (takeDigits cs).1 ++ (takeDigits cs).2 ∧
    ∀ c ∈ (takeDigits cs).1, c.isDigit = true := by
  induction cs with
  | nil => exact ⟨rfl, by simp [takeDigits]⟩
  | cons c rest ih =>
    by_cases h : c.isDigit = true
    · have hs : takeDigits (c :: rest) = (c :: (takeDigits rest).1, (takeDigits rest).2) := by
        simp [takeDigits, h]
      rw [hs]
      refine ⟨?_, ?_⟩
      · simpa using ih.1
      · intro x hx
        rcases List.mem_cons.mp hx with he | hm
        · rw [he]; exact h
        · exact ih.2 x hm
    · have hs : takeDigits (c :: rest) = ([], c :: rest) := by simp [takeDigits, h]
      rw [hs]
      exact ⟨rfl, by simp⟩

lemma parseStrBody_scan (d : Int) (acc cs : List Char) (p : Nat) :
    ∀ (s : String) (rest : List Char) (p2 : Nat),
      parseStrBody acc cs p = .ok (s, rest, p2) →
      ∃ consumed, cs = consumed ++ rest ∧
        scanList ⟨d, true, false⟩ consumed = ⟨d, false, false⟩ := by
  induction acc, cs, p using parseStrBody.induct with
  | case1 acc p =>
    intro s rest p2 h
    rw [parseStrBody.eq_def] at h
    exact Except.noConfusion h
  | case2 acc tl p =>
    intro s rest p2 h
    rw [parseStrBody.eq_def] at h
    simp at h
    obtain ⟨-, hrest, -⟩ := h
    refine ⟨['"'], by rw [hrest]; rfl, ?_⟩
    simp [scanList, scanStep_quote_close]
  | case3 acc p hne =>
    intro s rest p2 h
    rw [parseStrBody.eq_def] at h
    simp [(by decide : ¬(('\\' : Char) = '"'))] at h
  | case4 acc p h1 h2 h3 h4 rest3 v1 v2 v3 v4 e4 e3 e2 e1 hne ih =>
    intro s rest p2 h
    rw [parseStrBody.eq_def] at h
    simp [(by decide : ¬(('\\' : Char) = '"')), e1, e2, e3, e4] at h
    obtain ⟨consumed, hsplit, hscan⟩ := ih s rest p2 h
    refine ⟨'\\' :: 'u' :: h1 :: h2 :: h3 :: h4 :: consumed, by simp [hsplit], ?_⟩
    rw [scanList, scanStep_backslash_inStr, scanList, scanStep_esc,
      scanList, scanStep_inStr d h1 (hexVal_ne h1 v1 e1).1 (hexVal_ne h1 v1 e1).2,
      scanList, scanStep_inStr d h2 (hexVal_ne h2 v2 e2).1 (hexVal_ne h2 v2 e2).2,
      scanList, scanStep_inStr d h3 (hexVal_ne h3 v3 e3).1 (hexVal_ne h3 v3 e3).2,
      scanList, scanStep_inStr d h4 (hexVal_ne h4 v4 e4).1 (hexVal_ne h4 v4 e4).2]
    exact hscan
  | case5 acc p h1 h2 h3 h4 rest3 hfail hne =>
    intro s rest p2 h
    rw [parseStrBody.eq_def] at h
    rcases e1 : hexVal h1 with _ | v1 <;> rcases e2 : hexVal h2 with _ | v2 <;>
      rcases e3 : hexVal h3 with _ | v3 <;> rcases e4 : hexVal h4 with _ | v4 <;>
      first
      | exact (hfail _ _ _ _ e1 e2 e3 e4).elim
      | simp [(by decide : ¬(('\\' : Char) = '"')), e1, e2, e3, e4] at h
  | case6 acc p rst hshape hne =>
    intro s rest p2 h
    rw [parseStrBody.eq_def] at h
    match rst, hshape with
    | [], _ => simp [(by decide : ¬(('\\' : Char) = '"'))] at h
    | [c1], _ => simp [(by decide : ¬(('\\' : Char) = '"'))] at h
    | [c1, c2], _ => simp [(by decide : ¬(('\\' : Char) = '"'))] at h
    | [c1, c2, c3], _ => simp [(by decide : ¬(('\\' : Char) = '"'))] at h
    | c1 :: c2 :: c3 :: c4 :: r, hshape => exact (hshape c1 c2 c3 c4 r rfl).elim
  | case7 acc p c tl hcu dch hesc hne ih =>
    intro s rest p2 h
    rw [parseStrBody.eq_def] at h
    simp [(by decide : ¬(('\\' : Char) = '"')), hcu, hesc] at h
    obtain ⟨consumed, hsplit, hscan⟩ := ih s rest p2 h
    refine ⟨'\\' :: c :: consumed, by simp [hsplit], ?_⟩
    rw [scanList, scanStep_backslash_inStr, scanList, scanStep_esc]
    exact hscan
  | case8 acc p c tl hcu hesc hne =>
    intro s rest p2 h
    rw [parseStrBody.eq_def] at h
    simp [(by decide : ¬(('\\' : Char) = '"')), hcu, hesc] at h
  | case9 acc c tl p hq hb hctl =>
    intro s rest p2 h
    rw [parseStrBody.eq_def] at h
    simp [hq, hb, hctl] at h
  | case10 acc c tl p hq hb hctl ih =>
    intro s rest p2 h
    rw [parseStrBody.eq_def] at h
    simp [hq, hb, hctl] at h
    obtain ⟨consumed, hsplit, hscan⟩ := ih s rest p2 h
    refine ⟨c :: consumed, by simp [hsplit], ?_⟩
    rw [scanList, scanStep_inStr d c hq hb]
    exact hscan

lemma parseFracPart_split (cs : List Char) (p : Nat) :
    cs = (parseFracPart cs p).1 ++ (parseFracPart cs p).2.1 ∧
    ∀ c ∈ (parseFracPart cs p).1, c ≠ lcurl ∧ c ≠ rcurl ∧ c ≠ '"' := by
  rcases cs with _ | ⟨c, r⟩
  · simp [parseFracPart]
  · by_cases hdot : c = '.'
    · subst hdot
      obtain ⟨hsplit, hds⟩ := takeDigits_split r
      by_cases hemp : (takeDigits r).1.isEmpty
      · have he : parseFracPart ('.' :: r) p = ([], '.' :: r, p) := by
          rw [parseFracPart.eq_def]
          simp [hemp]
        simp [he]
      · have he : parseFracPart ('.' :: r) p =
            ('.' :: (takeDigits r).1, (takeDigits r).2, p + 1 + (takeDigits r).1.length) := by
          rw [parseFracPart.eq_def]
          simp [hemp]
        rw [he]
        refine ⟨by simpa using hsplit, ?_⟩
        intro x hx
        rcases List.mem_cons.mp hx with he2 | hm
        · subst he2; exact ⟨by decide, by decide, by decide⟩
        · exact digit_neutral x (hds x hm)
    · have he : parseFracPart (c :: r) p = ([], c :: r, p) := by
        rw [parseFracPart.eq_def]
        split
        · rename_i r2 heq
          injection heq with h1 h2
          exact absurd h1 hdot
        · rfl
      simp [he]

lemma parseExpPart_split (cs : List Char) (p : Nat) :
    cs = (parseExpPart cs p).1 ++ (parseExpPart cs p).2.1 ∧
    ∀ c ∈ (parseExpPart cs p).1, c ≠ lcurl ∧ c ≠ rcurl ∧ c ≠ '"' := by
  rcases cs with _ | ⟨e, r⟩
  · simp [parseExpPart]
  · by_cases hexp : e = 'e' ∨ e = 'E'
    · rcases r with _ | ⟨s, r2⟩
      · have he : parseExpPart [e] p = ([], [e], p) := by
          rw [parseExpPart.eq_def]
          simp [hexp]
        simp [he]
      · by_cases hsign : s = '+' ∨ s = '-'
        · obtain ⟨hsplit, hds⟩ := takeDigits_split r2
          by_cases hemp : (takeDigits r2).1.isEmpty
          · have he : parseExpPart (e :: s :: r2) p = ([], e :: s :: r2, p) := by
              rw [parseExpPart.eq_def]
              simp [hexp, hsign, hemp]
            simp [he]
          · have he : parseExpPart (e :: s :: r2) p =
                (e :: s :: (takeDigits r2).1, (takeDigits r2).2,
                  p + 2 + (takeDigits r2).1.length) := by
              rw [parseExpPart.eq_def]
              simp [hexp, hsign, hemp]
            rw [he]
            refine ⟨by simpa using hsplit, ?_⟩
            intro x hx
            rcases List.mem_cons.mp hx with he2 | hm
            · subst he2
              rcases hexp with h2 | h2 <;> subst h2 <;> exact ⟨by decide, by decide, by decide⟩
            rcases List.mem_cons.mp hm with he2 | hm2
            · subst he2
              rcases hsign with h2 | h2 <;> subst h2 <;> exact ⟨by decide, by decide, by decide⟩
            · exact digit_neutral x (hds x hm2)
        · obtain ⟨hsplit, hds⟩ := takeDigits_split (s :: r2)
          by_cases hemp : (takeDigits (s :: r2)).1.isEmpty
          · have he : parseExpPart (e :: s :: r2) p = ([], e :: s :: r2, p) := by
              rw [parseExpPart.eq_def]
              simp [hexp, hsign, hemp]
            simp [he]
          · have he : parseExpPart (e :: s :: r2) p =
                (e :: (takeDigits (s :: r2)).1, (takeDigits (s :: r2)).2,
                  p + 1 + (takeDigits (s :: r2)).1.length) := by
              rw [parseExpPart.eq_def]
              simp [hexp, hsign, hemp]
            rw [he]
            refine ⟨by simpa using hsplit, ?_⟩
            intro x hx
            rcases List.mem_cons.mp hx with he2 | hm
            · subst he2
              rcases hexp with h2 | h2 <;> subst h2 <;> exact ⟨by decide, by decide, by decide⟩
            · exact digit_neutral x (hds x hm)
    · have he : parseExpPart (e :: r) p = ([], e :: r, p) := by
        rw [parseExpPart.eq_def]
        simp [hexp]
      simp [he]

lemma parseNumSuffix_split (cs : List Char) (p : Nat) :
    cs = (parseNumSuffix cs p).1 ++ (parseNumSuffix cs p).2.1 ∧
    ∀ c ∈ (parseNumSuffix cs p).1, c ≠ lcurl ∧ c ≠ rcurl ∧ c ≠ '"' := by
  obtain ⟨hf1, hf2⟩ := parseFracPart_split cs p
  obtain ⟨he1, he2⟩ := parseExpPart_split (parseFracPart cs p).2.1 (parseFracPart cs p).2.2
  have hs : parseNumSuffix cs p =
      ((parseFracPart cs p).1 ++ (parseExpPart (parseFracPart cs p).2.1 (parseFracPart cs p).2.2).1,
       (parseExpPart (parseFracPart cs p).2.1 (parseFracPart cs p).2.2).2.1,
       (parseExpPart (parseFracPart cs p).2.1 (parseFracPart cs p).2.2).2.2) := by
    rw [parseNumSuffix]
  rw [hs]
  refine ⟨?_, ?_⟩
  · rw [List.append_assoc, ← he1]
    exact hf1
  · intro x hx
    rcases List.mem_append.mp hx with hm | hm
    · exact hf2 x hm
    · exact he2 x hm

lemma minus_zero_neutral :
    (('-' : Char) ≠ lcurl ∧ ('-' : Char) ≠ rcurl ∧ ('-' : Char) ≠ '"') ∧
    (('0' : Char) ≠ lcurl ∧ ('0' : Char) ≠ rcurl ∧ ('0' : Char) ≠ '"') := by
  refine ⟨⟨by decide, by decide, by decide⟩, by decide, by decide, by decide⟩

lemma parseNum_scan (d : Int) (cs : List Char) (p : Nat) (v : Json) (rest : List Char)
    (p2 : Nat) (h : parseNum cs p = .ok (v, rest, p2)) :
    ∃ consumed, cs = consumed ++ rest ∧
      scanList ⟨d, false, false⟩ consumed = ⟨d, false, false⟩ := by
  rcases cs with _ | ⟨c0, r0⟩
  · rw [(rfl : parseNum [] p = .error p)] at h
    exact Except.noConfusion h
  by_cases hneg : c0 = '-'
  · subst hneg
    rcases r0 with _ | ⟨c, rr⟩
    · rw [(rfl : parseNum ['-'] p = .error p)] at h
      exact Except.noConfusion h
    by_cases h0 : c = '0'
    · subst h0
      rcases hns : parseNumSuffix rr (p + 1 + 1) with ⟨suf, r, pp⟩
      have h2 : parseNum ('-' :: '0' :: rr) p = .ok (.num 0 (String.mk suf), r, pp) := by
        rw [parseNum.eq_def]
        simp [hns]
      rw [h2] at h
      obtain ⟨-, hrest, -⟩ := by simpa using h
      obtain ⟨hsplit, hneutral⟩ := parseNumSuffix_split rr (p + 1 + 1)
      rw [hns] at hsplit hneutral
      refine ⟨'-' :: '0' :: suf, ?_, ?_⟩
      · rw [← hrest]
        simpa using hsplit
      · rw [scanList, scanStep_base d '-' minus_zero_neutral.1.1 minus_zero_neutral.1.2.1
          minus_zero_neutral.1.2.2,
          scanList, scanStep_base d '0' minus_zero_neutral.2.1 minus_zero_neutral.2.2.1
          minus_zero_neutral.2.2.2]
        exact scanList_base_of_all d suf hneutral
    by_cases hdig : c.isDigit = true
    · rcases htd : takeDigits (c :: rr) with ⟨ds, r⟩
      rcases hns : parseNumSuffix r (p + 1 + ds.length) with ⟨suf, r2, pp⟩
      have h2 : parseNum ('-' :: c :: rr) p =
          .ok (.num (-(Int.ofNat (digitsToNat ds))) (String.mk suf), r2, pp) := by
        rw [parseNum.eq_def]
        simp [h0, hdig, htd, hns]
      rw [h2] at h
      obtain ⟨-, hrest, -⟩ := by simpa using h
      obtain ⟨hsplit, hdigits⟩ := takeDigits_split (c :: rr)
      rw [htd] at hsplit hdigits
      obtain ⟨hsplit2, hneutral⟩ := parseNumSuffix_split r (p + 1 + ds.length)
      rw [hns] at hsplit2 hneutral
      refine ⟨'-' :: (ds ++ suf), ?_, ?_⟩
      · rw [← hrest]
        simp only [List.cons_append, List.append_assoc, ← hsplit2]
        rw [← hsplit]
      · rw [scanList, scanStep_base d '-' minus_zero_neutral.1.1 minus_zero_neutral.1.2.1
          minus_zero_neutral.1.2.2, scanList_append,
          scanList_base_of_all d ds (fun x hx => digit_neutral x (hdigits x hx))]
        exact scanList_base_of_all d suf hneutral
    · have h2 : parseNum ('-' :: c :: rr) p = .error p := by
        rw [parseNum.eq_def]
        simp [h0, hdig]
      rw [h2] at h
      exact Except.noConfusion h
  · rw [parseNum.eq_def] at h
    split at h
    rename_i neg cs1 p1 heq
    split at heq
    · rename_i r heq2
      injection heq2 with hh _
      exact absurd hh hneg
    injection heq with hneg2 hrest2
    injection hrest2 with hcs1 hp1
    subst hcs1
    subst hp1
    by_cases h0 : c0 = '0'
    · subst h0
      rcases hns : parseNumSuffix r0 (p + 1) with ⟨suf, r, pp⟩
      simp only [if_pos rfl, hns] at h
      obtain ⟨-, hrest, -⟩ := by simpa using h
      obtain ⟨hsplit, hneutral⟩ := parseNumSuffix_split r0 (p + 1)
      rw [hns] at hsplit hneutral
      refine ⟨'0' :: suf, ?_, ?_⟩
      · rw [← hrest]
        simpa using hsplit
      · rw [scanList, scanStep_base d '0' minus_zero_neutral.2.1 minus_zero_neutral.2.2.1
          minus_zero_neutral.2.2.2]
        exact scanList_base_of_all d suf hneutral
    by_cases hdig : c0.isDigit = true
    · rcases htd : takeDigits (c0 :: r0) with ⟨ds, r⟩
      rcases hns : parseNumSuffix r (p + ds.length) with ⟨suf, r2, pp⟩
      simp only [if_neg h0, if_pos hdig, htd, hns] at h
      obtain ⟨-, hrest, -⟩ := by simpa using h
      obtain ⟨hsplit, hdigits⟩ := takeDigits_split (c0 :: r0)
      rw [htd] at hsplit hdigits
      obtain ⟨hsplit2, hneutral⟩ := parseNumSuffix_split r (p + ds.length)
      rw [hns] at hsplit2 hneutral
      refine ⟨ds ++ suf, ?_, ?_⟩
      · rw [← hrest]
        rw [List.append_assoc, ← hsplit2, ← hsplit]
      · rw [scanList_append,
          scanList_base_of_all d ds (fun x hx => digit_neutral x (hdigits x hx))]
        exact scanList_base_of_all d suf hneutral
    · simp only [if_neg h0, if_neg hdig] at h
      exact Except.noConfusion h

lemma scanList_cons (st : ScanSt) (c : Char) (l : List Char) :
    scanList st (c :: l) = scanList (scanStep st c) l := rfl

lemma scanList_chain (st1 st2 st3 : ScanSt) (a b : List Char)
    (h1 : scanList st1 a = st2) (h2 : scanList st2 b = st3) :
    scanList st1 (a ++ b) = st3 := by
  rw [scanList_append, h1, h2]

lemma parse_balance : ∀ fuel : Nat,
    (∀ (cs : List Char) (p : Nat) (v : Json) (rest : List Char) (p2 : Nat) (d : Int),
      parseVal fuel cs p = .ok (v, rest, p2) →
      ∃ consumed, cs = consumed ++ rest ∧
        scanList ⟨d, false, false⟩ consumed = ⟨d, false, false⟩) ∧
    (∀ (cs : List Char) (p : Nat) (acc : List (String × Json)) (v : Json) (rest : List Char)
      (p2 : Nat) (d : Int),
      parseMembers fuel cs p acc = .ok (v, rest, p2) →
      ∃ consumed, cs = consumed ++ rest ∧
        scanList ⟨d, false, false⟩ consumed = ⟨d - 1, false, false⟩) ∧
    (∀ (cs : List Char) (p : Nat) (acc : List Json) (v : Json) (rest : List Char)
      (p2 : Nat) (d : Int),
      parseItems fuel cs p acc = .ok (v, rest, p2) →
      ∃ consumed, cs = consumed ++ rest ∧
        scanList ⟨d, false, false⟩ consumed = ⟨d, false, false⟩) := by
  intro fuel
  induction fuel with
  | zero =>
    refine ⟨?_, ?_, ?_⟩
    · intro cs p v rest p2 d h
      rw [(rfl : parseVal 0 cs p = .error p)] at h
      exact Except.noConfusion h
    · intro cs p acc v rest p2 d h
      rw [(rfl : parseMembers 0 cs p acc = .error p)] at h
      exact Except.noConfusion h
    · intro cs p acc v rest p2 d h
      rw [(rfl : parseItems 0 cs p acc = .error p)] at h
      exact Except.noConfusion h
  | succ fuel ih =>
    obtain ⟨ihV, ihM, ihI⟩ := ih
    refine ⟨?_, ?_, ?_⟩
    · -- parseVal (fuel + 1)
      intro cs p v rest p2 d h
      rw [parseVal] at h
      rcases hsw : skipWs cs p with ⟨cs1, p1⟩
      rw [hsw] at h
      obtain ⟨w, hw, hwall⟩ := skipWs_split cs p
      rw [hsw] at hw
      have hwscan : scanList ⟨d, false, false⟩ w = ⟨d, false, false⟩ := scanList_ws d w hwall
      rcases cs1 with _ | ⟨c, rest1⟩
      · exact Except.noConfusion h
      simp only [] at h
      by_cases hq : c = '"'
      · subst hq
        rw [if_pos rfl] at h
        cases hps : parseStrBody [] rest1 (p1 + 1) with
        | error e => rw [hps] at h; exact Except.noConfusion h
        | ok val =>
          obtain ⟨s, r, pp⟩ := val
          rw [hps] at h
          simp only [Except.ok.injEq, Prod.mk.injEq] at h
          obtain ⟨-, hrest, -⟩ := h
          obtain ⟨consS, hs1, hs2⟩ := parseStrBody_scan d [] rest1 (p1 + 1) s r pp hps
          refine ⟨w ++ '"' :: consS, ?_, ?_⟩
          · rw [hw, hs1, hrest]
            simp
          · refine scanList_chain _ ⟨d, false, false⟩ _ _ _ hwscan ?_
            rw [scanList_cons, scanStep_quote_open]
            exact hs2
      rw [if_neg hq] at h
      by_cases hcl : c = lcurl
      · subst hcl
        rw [if_pos rfl] at h
        rcases hsw2 : skipWs rest1 (p1 + 1) with ⟨cs2, p2'⟩
        rw [hsw2] at h
        simp only [] at h
        obtain ⟨w2, hw2, hwall2⟩ := skipWs_split rest1 (p1 + 1)
        rw [hsw2] at hw2
        rcases cs2 with _ | ⟨c2, r2⟩
        · exact Except.noConfusion h
        simp only [] at h
        by_cases hrc : c2 = rcurl
        · subst hrc
          rw [if_pos rfl] at h
          simp only [Except.ok.injEq, Prod.mk.injEq] at h
          obtain ⟨-, hrest, -⟩ := h
          refine ⟨w ++ lcurl :: (w2 ++ [rcurl]), ?_, ?_⟩
          · rw [hw, hw2, hrest]
            simp
          · refine scanList_chain _ ⟨d, false, false⟩ _ _ _ hwscan ?_
            rw [scanList_cons, scanStep_lcurl]
            refine scanList_chain _ ⟨d + 1, false, false⟩ _ _ _ (scanList_ws _ w2 hwall2) ?_
            rw [scanList_cons, scanStep_rcurl]
            show scanList ⟨d + 1 - 1, false, false⟩ [] = ⟨d, false, false⟩
            rw [scanList]
            congr 1
            ring
        · rw [if_neg hrc] at h
          obtain ⟨consM, hm1, hm2⟩ := ihM (c2 :: r2) p2' [] v rest p2 (d + 1) h
          refine ⟨w ++ lcurl :: (w2 ++ consM), ?_, ?_⟩
          · rw [hw, hw2, hm1]
            simp
          · refine scanList_chain _ ⟨d, false, false⟩ _ _ _ hwscan ?_
            rw [scanList_cons, scanStep_lcurl]
            refine scanList_chain _ ⟨d + 1, false, false⟩ _ _ _ (scanList_ws _ w2 hwall2) ?_
            rw [hm2]
            congr 1
            ring
      rw [if_neg hcl] at h
      by_cases hbk : c = '['
      · subst hbk
        rw [if_pos rfl] at h
        rcases hsw2 : skipWs rest1 (p1 + 1) with ⟨cs2, p2'⟩
        rw [hsw2] at h
        simp only [] at h
        obtain ⟨w2, hw2, hwall2⟩ := skipWs_split rest1 (p1 + 1)
        rw [hsw2] at hw2
        rcases cs2 with _ | ⟨c2, r2⟩
        · exact Except.noConfusion h
        simp only [] at h
        by_cases hrb : c2 = ']'
        · subst hrb
          rw [if_pos rfl] at h
          simp only [Except.ok.injEq, Prod.mk.injEq] at h
          obtain ⟨-, hrest, -⟩ := h
          refine ⟨w ++ '[' :: (w2 ++ [']']), ?_, ?_⟩
          · rw [hw, hw2, hrest]
            simp
          · refine scanList_chain _ ⟨d, false, false⟩ _ _ _ hwscan ?_
            rw [scanList_cons, scanStep_base d '[' (by decide) (by decide) (by decide)]
            refine scanList_chain _ ⟨d, false, false⟩ _ _ _ (scanList_ws _ w2 hwall2) ?_
            rw [scanList_cons, scanStep_base d ']' (by decide) (by decide) (by decide)]
            rfl
        · rw [if_neg hrb] at h
          obtain ⟨consI, hi1, hi2⟩ := ihI (c2 :: r2) p2' [] v rest p2 d h
          refine ⟨w ++ '[' :: (w2 ++ consI), ?_, ?_⟩
          · rw [hw, hw2, hi1]
            simp
          · refine scanList_chain _ ⟨d, false, false⟩ _ _ _ hwscan ?_
            rw [scanList_cons, scanStep_base d '[' (by decide) (by decide) (by decide)]
            exact scanList_chain _ ⟨d, false, false⟩ _ _ _ (scanList_ws _ w2 hwall2) hi2
      rw [if_neg hbk] at h
      by_cases hlt : c = 't'
      · subst hlt
        rw [if_pos rfl] at h
        split at h
        · rename_i rx r
          simp only [Except.ok.injEq, Prod.mk.injEq] at h
          obtain ⟨-, hrest, -⟩ := h
          refine ⟨w ++ ['t', 'r', 'u', 'e'], ?_, ?_⟩
          · rw [hw, hrest]
            simp
          · exact scanList_chain _ ⟨d, false, false⟩ _ _ _ hwscan
              (scanList_base_of_all d ['t', 'r', 'u', 'e'] (by decide))
        · exact Except.noConfusion h
      rw [if_neg hlt] at h
      by_cases hlf : c = 'f'
      · subst hlf
        rw [if_pos rfl] at h
        split at h
        · rename_i rx r
          simp only [Except.ok.injEq, Prod.mk.injEq] at h
          obtain ⟨-, hrest, -⟩ := h
          refine ⟨w ++ ['f', 'a', 'l', 's', 'e'], ?_, ?_⟩
          · rw [hw, hrest]
            simp
          · exact scanList_chain _ ⟨d, false, false⟩ _ _ _ hwscan
              (scanList_base_of_all d ['f', 'a', 'l', 's', 'e'] (by decide))
        · exact Except.noConfusion h
      rw [if_neg hlf] at h
      by_cases hln : c = 'n'
      · subst hln
        rw [if_pos rfl] at h
        split at h
        · rename_i rx r
          simp only [Except.ok.injEq, Prod.mk.injEq] at h
          obtain ⟨-, hrest, -⟩ := h
          refine ⟨w ++ ['n', 'u', 'l', 'l'], ?_, ?_⟩
          · rw [hw, hrest]
            simp
          · exact scanList_chain _ ⟨d, false, false⟩ _ _ _ hwscan
              (scanList_base_of_all d ['n', 'u', 'l', 'l'] (by decide))
        · exact Except.noConfusion h
      rw [if_neg hln] at h
      by_cases hnum : c = '-' ∨ c.isDigit = true
      · rw [if_pos hnum] at h
        obtain ⟨consN, hn1, hn2⟩ := parseNum_scan d (c :: rest1) p1 v rest p2 h
        refine ⟨w ++ consN, ?_, ?_⟩
        · rw [hw, hn1]
          simp
        · exact scanList_chain _ ⟨d, false, false⟩ _ _ _ hwscan hn2
      · rw [if_neg hnum] at h
        exact Except.noConfusion h
    · -- parseMembers (fuel + 1)
      intro cs p acc v rest p2 d h
      rcases cs with _ | ⟨c, rest1⟩
      · rw [parseMembers] at h
        exact Except.noConfusion h
      rw [parseMembers] at h
      by_cases hq : c = '"'
      · subst hq
        rw [if_pos rfl] at h
        cases hps : parseStrBody [] rest1 (p + 1) with
        | error e => rw [hps] at h; exact Except.noConfusion h
        | ok val =>
          obtain ⟨k, cs2, pp⟩ := val
          rw [hps] at h
          simp only [] at h
          obtain ⟨consK, hk1, hk2⟩ := parseStrBody_scan d [] rest1 (p + 1) k cs2 pp hps
          rcases hsw3 : skipWs cs2 pp with ⟨cs3, p3⟩
          rw [hsw3] at h
          simp only [] at h
          obtain ⟨w3, hw3, hwall3⟩ := skipWs_split cs2 pp
          rw [hsw3] at hw3
          split at h
          · rename_i rx r3
            cases hpv : parseVal fuel r3 (p3 + 1) with
            | error e => rw [hpv] at h; exact Except.noConfusion h
            | ok val2 =>
              obtain ⟨v2, cs4, p4⟩ := val2
              rw [hpv] at h
              simp only [] at h
              obtain ⟨consV, hv1, hv2⟩ := ihV r3 (p3 + 1) v2 cs4 p4 d hpv
              rcases hsw5 : skipWs cs4 p4 with ⟨cs5, p5⟩
              rw [hsw5] at h
              simp only [] at h
              obtain ⟨w5, hw5, hwall5⟩ := skipWs_split cs4 p4
              rw [hsw5] at hw5
              rcases cs5 with _ | ⟨c5, r5⟩
              · exact Except.noConfusion h
              simp only [] at h
              by_cases hcm : c5 = ','
              · subst hcm
                rw [if_pos rfl] at h
                rcases hsw6 : skipWs r5 (p5 + 1) with ⟨cs6, p6⟩
                rw [hsw6] at h
                simp only [] at h
                obtain ⟨w6, hw6, hwall6⟩ := skipWs_split r5 (p5 + 1)
                rw [hsw6] at hw6
                obtain ⟨consM, hm1, hm2⟩ := ihM cs6 p6 (acc ++ [(k, v2)]) v rest p2 d h
                refine ⟨'"' :: (consK ++ (w3 ++ (':' :: (consV ++ (w5 ++
                  (',' :: (w6 ++ consM))))))), ?_, ?_⟩
                · rw [hk1, hw3, hv1, hw5, hw6, hm1]
                  simp
                · rw [scanList_cons, scanStep_quote_open]
                  refine scanList_chain _ ⟨d, false, false⟩ _ _ _ hk2 ?_
                  refine scanList_chain _ ⟨d, false, false⟩ _ _ _ (scanList_ws _ w3 hwall3) ?_
                  rw [scanList_cons, scanStep_base d ':' (by decide) (by decide) (by decide)]
                  refine scanList_chain _ ⟨d, false, false⟩ _ _ _ hv2 ?_
                  refine scanList_chain _ ⟨d, false, false⟩ _ _ _ (scanList_ws _ w5 hwall5) ?_
                  rw [scanList_cons, scanStep_base d ',' (by decide) (by decide) (by decide)]
                  exact scanList_chain _ ⟨d, false, false⟩ _ _ _ (scanList_ws _ w6 hwall6) hm2
              rw [if_neg hcm] at h
              by_cases hrc : c5 = rcurl
              · subst hrc
                rw [if_pos rfl] at h
                simp only [Except.ok.injEq, Prod.mk.injEq] at h
                obtain ⟨-, hrest, -⟩ := h
                refine ⟨'"' :: (consK ++ (w3 ++ (':' :: (consV ++ (w5 ++ [rcurl]))))),
                  ?_, ?_⟩
                · rw [hk1, hw3, hv1, hw5, hrest]
                  simp
                · rw [scanList_cons, scanStep_quote_open]
                  refine scanList_chain _ ⟨d, false, false⟩ _ _ _ hk2 ?_
                  refine scanList_chain _ ⟨d, false, false⟩ _ _ _ (scanList_ws _ w3 hwall3) ?_
                  rw [scanList_cons, scanStep_base d ':' (by decide) (by decide) (by decide)]
                  refine scanList_chain _ ⟨d, false, false⟩ _ _ _ hv2 ?_
                  refine scanList_chain _ ⟨d, false, false⟩ _ _ _ (scanList_ws _ w5 hwall5) ?_
                  rw [scanList_cons, scanStep_rcurl]
                  rfl
              · rw [if_neg hrc] at h
                exact Except.noConfusion h
          · exact Except.noConfusion h
      · rw [if_neg hq] at h
        exact Except.noConfusion h
    · -- parseItems (fuel + 1)
      intro cs p acc v rest p2 d h
      rw [parseItems] at h
      cases hpv : parseVal fuel cs p with
      | error e => rw [hpv] at h; exact Except.noConfusion h
      | ok val =>
        obtain ⟨v2, cs2, p2'⟩ := val
        rw [hpv] at h
        simp only [] at h
        obtain ⟨consV, hv1, hv2⟩ := ihV cs p v2 cs2 p2' d hpv
        rcases hsw3 : skipWs cs2 p2' with ⟨cs3, p3⟩
        rw [hsw3] at h
        simp only [] at h
        obtain ⟨w3, hw3, hwall3⟩ := skipWs_split cs2 p2'
        rw [hsw3] at hw3
        rcases cs3 with _ | ⟨c3, r3⟩
        · exact Except.noConfusion h
        simp only [] at h
        by_cases hcm : c3 = ','
        · subst hcm
          rw [if_pos rfl] at h
          obtain ⟨consI, hi1, hi2⟩ := ihI r3 (p3 + 1) (acc ++ [v2]) v rest p2 d h
          refine ⟨consV ++ (w3 ++ ',' :: consI), ?_, ?_⟩
          · rw [hv1, hw3, hi1]
            simp
          · refine scanList_chain _ ⟨d, false, false⟩ _ _ _ hv2 ?_
            refine scanList_chain _ ⟨d, false, false⟩ _ _ _ (scanList_ws _ w3 hwall3) ?_
            rw [scanList_cons, scanStep_base d ',' (by decide) (by decide) (by decide)]
            exact hi2
        rw [if_neg hcm] at h
        by_cases hrb : c3 = ']'
        · subst hrb
          rw [if_pos rfl] at h
          simp only [Except.ok.injEq, Prod.mk.injEq] at h
          obtain ⟨-, hrest, -⟩ := h
          refine ⟨consV ++ (w3 ++ [']']), ?_, ?_⟩
          · rw [hv1, hw3, hrest]
            simp
          · refine scanList_chain _ ⟨d, false, false⟩ _ _ _ hv2 ?_
            refine scanList_chain _ ⟨d, false, false⟩ _ _ _ (scanList_ws _ w3 hwall3) ?_
            rw [scanList_cons, scanStep_base d ']' (by decide) (by decide) (by decide)]
            rfl
        · rw [if_neg hrb] at h
          exact Except.noConfusion h

lemma skipWs_fst (cs : List Char) (p : Nat) :
    (skipWs cs p).1 = cs.dropWhile isJsonWs := by
  induction cs generalizing p with
  | nil => rfl
  | cons c rest ih =>
    by_cases h : isJsonWs c = true
    · simp [skipWs, List.dropWhile, h, ih]
    · simp [skipWs, List.dropWhile, h]

lemma loads_ok_scan (s : String) (v : Json) (h : loads s = .ok v) :
    scanList ⟨0, false, false⟩ s.toList = ⟨0, false, false⟩ := by
  rw [loads] at h
  cases hpv : parseVal (s.toList.length + 1) s.toList 0 with
  | error e => rw [hpv] at h; exact LoadResult.noConfusion h
  | ok val =>
    obtain ⟨v2, rest, pp⟩ := val
    rw [hpv] at h
    simp only [] at h
    rcases hsw : skipWs rest pp with ⟨rest2, p2⟩
    rw [hsw] at h
    simp only [] at h
    by_cases hemp : rest2.isEmpty
    · obtain ⟨consumed, hc1, hc2⟩ :=
        (parse_balance (s.toList.length + 1)).1 s.toList 0 v2 rest pp 0 hpv
      have hrest_ws : ∀ c ∈ rest, isJsonWs c = true := by
        have hfst : (skipWs rest pp).1 = rest.dropWhile isJsonWs := skipWs_fst rest pp
        rw [hsw] at hfst
        have hnil : rest.dropWhile isJsonWs = [] := by
          rw [← hfst]
          exact List.isEmpty_iff.mp hemp
        intro c hc
        exact List.dropWhile_eq_nil_iff.mp hnil c hc
      rw [hc1, scanList_append, hc2]
      exact scanList_ws 0 rest hrest_ws
    · rw [if_neg hemp] at h
      exact LoadResult.noConfusion h

lemma takeToRcurl_eq_take (l : List Char) (h : rcurl ∈ l) :
    takeToRcurl l = l.take (l.findIdx (· = rcurl) + 1) := by
  induction l with
  | nil => cases h
  | cons c rest ih =>
    by_cases hc : c = rcurl
    · subst hc
      rw [takeToRcurl]
      simp [List.findIdx_cons]
    · rw [takeToRcurl]
      have h2 : rcurl ∈ rest := by
        rcases List.mem_cons.mp h with he | hm
        · exact absurd he.symm hc
        · exact hm
      simp only [if_neg hc, List.findIdx_cons]
      have hpc : ((fun x => x = rcurl) c : Bool) = false := by
        simp [hc]
      rw [hpc]
      simp only [cond_false]
      rw [List.take_succ_cons, ih h2]

/-- C10: in all three stream wrappers, a string whose stripped form starts
with a brace and contains a closing brace has `json.loads` attempted on
exactly the prefix up to and including the *first* closing brace (not a
balanced-braces prefix); whenever that cut is unbalanced under the depth
scanner (in particular whenever the first logical message contains a nested
object, so its first closing brace is not the outer one), the parse of that
prefix necessarily fails and every wrapper proceeds to its
JSON-decode-error handling instead of returning the first message
directly. -/
theorem naive_extraction_in_wrappers (rid : Nat) (s : String)
    (h1 : headIsLcurl (pyStrip s.toList) = true)
    (h2 : (pyStrip s.toList).contains rcurl = true)
    (hnb : scanList ⟨0, false, false⟩ (takeToRcurl (pyStrip s.toList)) ≠
      ⟨0, false, false⟩) :
    takeToRcurl (pyStrip s.toList) =
      (pyStrip s.toList).take ((pyStrip s.toList).findIdx (· = rcurl) + 1) ∧
    ∃ p, loads (String.mk (takeToRcurl (pyStrip s.toList))) = .err p ∧
      enhanced_read rid (.rvalue (.pstr s)) =
        .val (readDecodeHandler rid (takeToRcurl (pyStrip s.toList)) p) ∧
      client_enhanced_receive rid (.rvalue (.pstr s)) =
        .val (rpcErrorDict (intJ rid) ("JSON parsing error: " ++ jeRender p)) ∧
      server_enhanced_receive (.rvalue (.pstr s)) =
        .val (serverDecodeHandler (takeToRcurl (pyStrip s.toList)) p) := by
  have hcm : rcurl ∈ pyStrip s.toList := by simpa using h2
  refine ⟨takeToRcurl_eq_take _ hcm, ?_⟩
  cases hl : loads (String.mk (takeToRcurl (pyStrip s.toList))) with
  | ok v =>
    exfalso
    have hscan := loads_ok_scan _ v hl
    have hml : (String.mk (takeToRcurl (pyStrip s.toList))).toList =
        takeToRcurl (pyStrip s.toList) := rfl
    rw [hml] at hscan
    exact hnb hscan
  | err p =>
    have h1d := h1
    have hcmd := hcm
    have hld := hl
    simp only [String.toList] at h1d hcmd hld
    refine ⟨p, rfl, ?_, ?_, ?_⟩
    · simp [enhanced_read, h1, h2, hl, h1d, hcmd, hld]
    · simp [client_enhanced_receive, h1, h2, hl, h1d, hcmd, hld]
    · simp [server_enhanced_receive, h1, h2, hl, h1d, hcmd, hld]

/-- Witness for C10 on the scenario-B frame: the naive cut after the first
closing brace is 30 characters into a 31-character first message, the parse
of it fails at offset 30, and all three wrappers take their decode-error
branch. -/
theorem naive_extraction_in_wrappers_witness :
    takeToRcurl (pyStrip scenarioBFrame.toList) =
      (pyStrip scenarioBFrame.toList).take
        ((pyStrip scenarioBFrame.toList).findIdx (· = rcurl) + 1) ∧
    ∃ p, loads (String.mk (takeToRcurl (pyStrip scenarioBFrame.toList))) = .err p ∧
      enhanced_read 7 (.rvalue (.pstr scenarioBFrame)) =
        .val (readDecodeHandler 7 (takeToRcurl (pyStrip scenarioBFrame.toList)) p) ∧
      client_enhanced_receive 7 (.rvalue (.pstr scenarioBFrame)) =
        .val (rpcErrorDict (intJ 7) ("JSON parsing error: " ++ jeRender p)) ∧
      server_enhanced_receive (.rvalue (.pstr scenarioBFrame)) =
        .val (serverDecodeHandler (takeToRcurl (pyStrip scenarioBFrame.toList)) p) :=
  naive_extraction_in_wrappers 7 scenarioBFrame (by decide) (by decide) (by decide)
